import Mathlib

/-
Verification of the Sudoku puzzle engine (src/js/sudoku-engine.js).

The engine is shallowly embedded: a grid is a function `Fin 9 → Fin 9 → Nat`
(0 = empty cell), in-place mutation becomes explicit state passing, and
`Math.random` becomes an explicit stream of natural numbers (`Rng`).
Well-founded recursion of the backtracking solver is justified by the
number of empty cells; the `h : grid r c = 0` parameters of the inner
candidate loops carry the loop invariant (the chosen cell is empty) that
the JavaScript code maintains implicitly and that termination needs.
-/

abbrev Grid := Fin 9 → Fin 9 → Nat

/-- The all-empty grid (`Array(9).fill().map(() => Array(9).fill(0))`). -/
def emptyGrid : Grid := fun _ _ => 0

/-- Write value `v` at cell (r, c) (`grid[r][c] = v`). -/
def setCell (g : Grid) (r c : Fin 9) (v : Nat) : Grid :=
  fun r' c' => if r' = r ∧ c' = c then v else g r' c'

/-- All 81 cells in row-major order, the scan order of every loop
`for row ... for col ...` in the engine. -/
def cellsList : List (Fin 9 × Fin 9) :=
  (List.finRange 9).flatMap fun r => (List.finRange 9).map fun c => (r, c)

/-- `findEmptyCell`: first empty cell in row-major order, or null. -/
def findEmptyCell (g : Grid) : Option (Fin 9 × Fin 9) :=
  cellsList.find? fun p => g p.1 p.2 == 0

/-- The candidate list `[1, 2, 3, 4, 5, 6, 7, 8, 9]`. -/
def nums1to9 : List Nat := [1, 2, 3, 4, 5, 6, 7, 8, 9]

/-- `isValidMove(grid, row, col, num)`: `num` appears nowhere in the row,
the column, or the 3x3 box anchored at `(row - row % 3, col - col % 3)`. -/
def isValidMove (g : Grid) (row col : Fin 9) (num : Nat) : Bool :=
  ((List.finRange 9).all fun x => g row x != num) &&
  ((List.finRange 9).all fun x => g x col != num) &&
  (let startRow := row.val - row.val % 3
   let startCol := col.val - col.val % 3
   (List.finRange 3).all fun i => (List.finRange 3).all fun j =>
     g ⟨i.val + startRow, by have := i.isLt; have := row.isLt; omega⟩
       ⟨j.val + startCol, by have := j.isLt; have := col.isLt; omega⟩ != num)

/-- `getPossibleValues(grid, row, col)`: the values 1..9 that pass
`isValidMove`, in ascending order. -/
def getPossibleValues (grid : Grid) (row col : Fin 9) : List Nat :=
  nums1to9.filter fun num => isValidMove grid row col num

/-- Number of empty cells of a grid (the measure that justifies the
termination of the backtracking recursions). -/
def numEmpty (g : Grid) : Nat :=
  (Finset.univ.filter fun p : Fin 9 × Fin 9 => g p.1 p.2 = 0).card

/-- Number of filled cells (clues) of a grid. -/
def clueCount (g : Grid) : Nat :=
  (Finset.univ.filter fun p : Fin 9 × Fin 9 => g p.1 p.2 ≠ 0).card

/-- The random source: `Math.random()` becomes a stream of naturals,
consumed from the front; an exhausted stream yields 0. -/
abbrev Rng := List Nat

/-- Draw a natural below `n` (models `Math.floor(Math.random() * n)`). -/
def randBelow (rng : Rng) (n : Nat) : Nat × Rng :=
  match rng with
  | [] => (0, [])
  | x :: rest => (x % n, rest)

/-- Draw a row or column index (models `Math.floor(Math.random() * 9)`). -/
def randFin9 (rng : Rng) : Fin 9 × Rng :=
  match rng with
  | [] => (⟨0, by omega⟩, [])
  | x :: rest => (⟨x % 9, Nat.mod_lt x (by omega)⟩, rest)

/-- One swap `[a[i], a[j]] = [a[j], a[i]]` on a list. -/
def listSwap {α : Type} [Inhabited α] (l : List α) (i j : Nat) : List α :=
  (l.set i (l.getD j default)).set j (l.getD i default)

/-- The Fisher-Yates loop of `shuffleArray`, counting the index down. -/
def shuffleGo {α : Type} [Inhabited α] : Rng → List α → Nat → List α × Rng
  | rng, l, 0 => (l, rng)
  | rng, l, i + 1 =>
    let jr := randBelow rng (i + 2)
    shuffleGo jr.2 (listSwap l (i + 1) jr.1) i

/-- `shuffleArray(array)`: Fisher-Yates shuffle of a copy of the array. -/
def shuffleArray {α : Type} [Inhabited α] (rng : Rng) (array : List α) :
    List α × Rng :=
  shuffleGo rng array (array.length - 1)

mutual
/-- `solvePuzzle(grid)`: backtracking solver with randomly shuffled
candidate order; returns the solved grid (the final state of the mutated
argument) or none. -/
def solvePuzzle (rng : Rng) (grid : Grid) : Option Grid × Rng :=
  match hE : findEmptyCell grid with
  | none => (some grid, rng)
  | some rc =>
    let sh := shuffleArray rng nums1to9
    tryNums sh.2 grid rc.1 rc.2
      (by have h := List.find?_some hE; simpa using h) sh.1
  termination_by (numEmpty grid + 1, 0)
  decreasing_by
    exact Prod.Lex.left _ _ (by omega)

/-- The `for (let num of numbers)` loop of `solvePuzzle`. -/
def tryNums (rng : Rng) (grid : Grid) (r c : Fin 9) (h : grid r c = 0) :
    List Nat → Option Grid × Rng
  | [] => (none, rng)
  | num :: rest =>
    if hv : isValidMove grid r c num then
      match solvePuzzle rng (setCell grid r c num) with
      | (some solved, rng2) => (some solved, rng2)
      | (none, rng2) => tryNums rng2 grid r c h rest
    else tryNums rng grid r c h rest
  termination_by nums => (numEmpty grid, nums.length)
  decreasing_by
    · have hnum : num ≠ 0 := by
        intro h0
        rw [h0] at hv
        unfold isValidMove at hv
        simp only [Bool.and_eq_true, List.all_eq_true, bne_iff_ne, ne_eq,
          List.mem_finRange, forall_const] at hv
        exact hv.1.1 c h
      have hlt : numEmpty (setCell grid r c num) < numEmpty grid := by
        apply Finset.card_lt_card
        constructor
        · intro p hp
          simp only [Finset.mem_filter, Finset.mem_univ, true_and, setCell] at hp ⊢
          split at hp
          · exact absurd hp hnum
          · exact hp
        · intro hsub
          have h1 : (r, c) ∈ Finset.univ.filter
              fun p : Fin 9 × Fin 9 => grid p.1 p.2 = 0 := by simp [h]
          have h2 := hsub h1
          simp [setCell] at h2
          exact absurd h2 hnum
      rcases Nat.lt_or_ge (numEmpty (setCell grid r c num) + 1) (numEmpty grid)
        with hc | hc
      · exact Prod.Lex.left _ _ hc
      · have he : numEmpty (setCell grid r c num) + 1 = numEmpty grid := by omega
        rw [he]
        exact Prod.Lex.right _ (by simp)
    · exact Prod.Lex.right _ (by simp)
    · exact Prod.Lex.right _ (by simp)
end

/-- Step kinds recorded by `solvePuzzleWithSteps`. -/
inductive StepType where
  | place
  | backtrack
deriving DecidableEq, BEq

/-- One recorded solving step `{row, col, value, type}`. -/
structure Step where
  row : Fin 9
  col : Fin 9
  value : Nat
  type : StepType
deriving DecidableEq

mutual
/-- `solvePuzzleWithSteps(grid, steps)`: same backtracking solver with
ascending candidate order 1..9, recording place/backtrack steps. -/
def solvePuzzleWithSteps (grid : Grid) (steps : List Step) :
    Option Grid × List Step :=
  match hE : findEmptyCell grid with
  | none => (some grid, steps)
  | some rc =>
    swsTry grid rc.1 rc.2
      (by have h := List.find?_some hE; simpa using h) steps nums1to9
  termination_by (numEmpty grid + 1, 0)
  decreasing_by
    exact Prod.Lex.left _ _ (by omega)

/-- The `for (let num = 1; num <= 9; num++)` loop of
`solvePuzzleWithSteps`. -/
def swsTry (grid : Grid) (r c : Fin 9) (h : grid r c = 0) (steps : List Step) :
    List Nat → Option Grid × List Step
  | [] => (none, steps)
  | num :: rest =>
    if hv : isValidMove grid r c num then
      match solvePuzzleWithSteps (setCell grid r c num)
          (steps ++ [⟨r, c, num, StepType.place⟩]) with
      | (some solved, steps2) => (some solved, steps2)
      | (none, steps2) =>
        swsTry grid r c h (steps2 ++ [⟨r, c, 0, StepType.backtrack⟩]) rest
    else swsTry grid r c h steps rest
  termination_by nums => (numEmpty grid, nums.length)
  decreasing_by
    · have hnum : num ≠ 0 := by
        intro h0
        rw [h0] at hv
        unfold isValidMove at hv
        simp only [Bool.and_eq_true, List.all_eq_true, bne_iff_ne, ne_eq,
          List.mem_finRange, forall_const] at hv
        exact hv.1.1 c h
      have hlt : numEmpty (setCell grid r c num) < numEmpty grid := by
        apply Finset.card_lt_card
        constructor
        · intro p hp
          simp only [Finset.mem_filter, Finset.mem_univ, true_and, setCell] at hp ⊢
          split at hp
          · exact absurd hp hnum
          · exact hp
        · intro hsub
          have h1 : (r, c) ∈ Finset.univ.filter
              fun p : Fin 9 × Fin 9 => grid p.1 p.2 = 0 := by simp [h]
          have h2 := hsub h1
          simp [setCell] at h2
          exact absurd h2 hnum
      rcases Nat.lt_or_ge (numEmpty (setCell grid r c num) + 1) (numEmpty grid)
        with hc | hc
      · exact Prod.Lex.left _ _ hc
      · have he : numEmpty (setCell grid r c num) + 1 = numEmpty grid := by omega
        rw [he]
        exact Prod.Lex.right _ (by simp)
    · exact Prod.Lex.right _ (by simp)
    · exact Prod.Lex.right _ (by simp)
end

mutual
/-- `findAllSolutions(grid, solutions, maxSolutions)`: enumerate
completions in ascending candidate order, stopping once `maxSolutions`
solutions are recorded; returns the solutions list and the
keep-searching flag. -/
def findAllSolutions (grid : Grid) (solutions : List Grid)
    (maxSolutions : Nat) : List Grid × Bool :=
  if solutions.length ≥ maxSolutions then (solutions, false)
  else
    match hE : findEmptyCell grid with
    | none => (solutions ++ [grid], decide (solutions.length + 1 < maxSolutions))
    | some rc =>
      faTry grid rc.1 rc.2
        (by have h := List.find?_some hE; simpa using h)
        solutions maxSolutions nums1to9
  termination_by (numEmpty grid + 1, 0)
  decreasing_by
    exact Prod.Lex.left _ _ (by omega)

/-- The `for (let num = 1; num <= 9; num++)` loop of `findAllSolutions`. -/
def faTry (grid : Grid) (r c : Fin 9) (h : grid r c = 0)
    (solutions : List Grid) (maxSolutions : Nat) : List Nat → List Grid × Bool
  | [] => (solutions, true)
  | num :: rest =>
    if hv : isValidMove grid r c num then
      match findAllSolutions (setCell grid r c num) solutions maxSolutions with
      | (sols2, false) => (sols2, false)
      | (sols2, true) => faTry grid r c h sols2 maxSolutions rest
    else faTry grid r c h solutions maxSolutions rest
  termination_by nums => (numEmpty grid, nums.length)
  decreasing_by
    · have hnum : num ≠ 0 := by
        intro h0
        rw [h0] at hv
        unfold isValidMove at hv
        simp only [Bool.and_eq_true, List.all_eq_true, bne_iff_ne, ne_eq,
          List.mem_finRange, forall_const] at hv
        exact hv.1.1 c h
      have hlt : numEmpty (setCell grid r c num) < numEmpty grid := by
        apply Finset.card_lt_card
        constructor
        · intro p hp
          simp only [Finset.mem_filter, Finset.mem_univ, true_and, setCell] at hp ⊢
          split at hp
          · exact absurd hp hnum
          · exact hp
        · intro hsub
          have h1 : (r, c) ∈ Finset.univ.filter
              fun p : Fin 9 × Fin 9 => grid p.1 p.2 = 0 := by simp [h]
          have h2 := hsub h1
          simp [setCell] at h2
          exact absurd h2 hnum
      rcases Nat.lt_or_ge (numEmpty (setCell grid r c num) + 1) (numEmpty grid)
        with hc | hc
      · exact Prod.Lex.left _ _ hc
      · have he : numEmpty (setCell grid r c num) + 1 = numEmpty grid := by omega
        rw [he]
        exact Prod.Lex.right _ (by simp)
    · exact Prod.Lex.right _ (by simp)
    · exact Prod.Lex.right _ (by simp)
end

/-- `hasUniqueSolution()`: run the enumeration on a copy of the grid with
an early cutoff at 2 and report whether exactly 1 solution was recorded. -/
def hasUniqueSolution (grid : Grid) : Bool :=
  (findAllSolutions grid [] 2).1.length == 1

/-- Reassign the rows of one 3-row group according to the shuffled list of
row indices (`this.grid[group*3+i] = tempGrid[shuffledRows[i]]`). -/
def applyRowShuffle (g : Grid) (grp : Nat) (sh : List (Fin 9)) : Grid :=
  fun r c => if r.val / 3 = grp then g (sh.getD (r.val % 3) r) c else g r c

/-- Reassign the columns of one 3-column group according to the shuffled
list of column indices. -/
def applyColShuffle (g : Grid) (grp : Nat) (sh : List (Fin 9)) : Grid :=
  fun r c => if c.val / 3 = grp then g r (sh.getD (c.val % 3) c) else g r c

/-- The indices `[group*3, group*3+1, group*3+2]` of one group. -/
def groupIdx (grp : Fin 3) : List (Fin 9) :=
  [⟨3 * grp.val, by have := grp.isLt; omega⟩,
   ⟨3 * grp.val + 1, by have := grp.isLt; omega⟩,
   ⟨3 * grp.val + 2, by have := grp.isLt; omega⟩]

/-- One iteration of the row-shuffling loop of `shuffleGrid`. -/
def shuffleRowsStep (rng : Rng) (g : Grid) (grp : Fin 3) : Grid × Rng :=
  let sh := shuffleArray rng (groupIdx grp)
  (applyRowShuffle g grp.val sh.1, sh.2)

/-- One iteration of the column-shuffling loop of `shuffleGrid`. -/
def shuffleColsStep (rng : Rng) (g : Grid) (grp : Fin 3) : Grid × Rng :=
  let sh := shuffleArray rng (groupIdx grp)
  (applyColShuffle g grp.val sh.1, sh.2)

/-- `shuffleGrid()`: shuffle rows within each 3-row group, then columns
within each 3-column group. -/
def shuffleGrid (rng : Rng) (g : Grid) : Grid × Rng :=
  let s1 := shuffleRowsStep rng g 0
  let s2 := shuffleRowsStep s1.2 s1.1 1
  let s3 := shuffleRowsStep s2.2 s2.1 2
  let s4 := shuffleColsStep s3.2 s3.1 0
  let s5 := shuffleColsStep s4.2 s4.1 1
  shuffleColsStep s5.2 s5.1 2

/-- `generateCompleteGrid()`: reset the grid to empty, fill it with the
backtracking solver, then apply the validity-preserving shuffle. -/
def generateCompleteGrid (rng : Rng) : Grid × Rng :=
  let solved := solvePuzzle rng emptyGrid
  shuffleGrid solved.2 (solved.1.getD emptyGrid)

/-- The engine instance state (`this.grid`, `this.solution`,
`this.initialGrid`, `this.difficulty`). -/
structure Engine where
  grid : Grid
  solution : Grid
  initialGrid : Grid
  difficulty : String

/-- The state produced by the `SudokuEngine` constructor. -/
def engineNew : Engine :=
  { grid := emptyGrid, solution := emptyGrid, initialGrid := emptyGrid,
    difficulty := "medium" }

/-- `this.difficultySettings[d].clues`; none models the lookup on an
unrecognized key (whose `.clues` access throws a TypeError). -/
def difficultySettings (d : String) : Option Nat :=
  if d = "easy" then some 45
  else if d = "medium" then some 35
  else if d = "hard" then some 25
  else if d = "expert" then some 17
  else none

/-- The recognized difficulty tags. -/
def validDiffs : List String := ["easy", "medium", "hard", "expert"]

/-- The `while (removed < cellsToRemove && attempts < 1000)` loop of
`createPuzzle`; the first argument is the number of attempts still
allowed, and the final remaining-attempt count is returned alongside the
grid so the exhaustion of the budget is observable. -/
def createPuzzleLoop : Nat → Nat → Nat → Rng → Grid → Grid × Rng × Nat
  | 0, _, _, rng, grid => (grid, rng, 0)
  | attemptsLeft + 1, removed, cellsToRemove, rng, grid =>
    if removed < cellsToRemove then
      let pr := randFin9 rng
      let pc := randFin9 pr.2
      if grid pr.1 pc.1 ≠ 0 then
        let cleared := setCell grid pr.1 pc.1 0
        if hasUniqueSolution cleared then
          createPuzzleLoop attemptsLeft (removed + 1) cellsToRemove pc.2 cleared
        else
          createPuzzleLoop attemptsLeft removed cellsToRemove pc.2 grid
      else createPuzzleLoop attemptsLeft removed cellsToRemove pc.2 grid
    else (grid, rng, attemptsLeft + 1)

/-- The `{grid, solution, difficulty}` object returned by
`generatePuzzle`. -/
structure PuzzleOut where
  grid : Grid
  solution : Grid
  difficulty : String

/-- Result of a `generatePuzzle` call: the updated engine state, the
remaining random stream, and either the returned puzzle or the thrown
TypeError (`Except.error ()`). -/
structure GenResult where
  engine : Engine
  rng : Rng
  result : Except Unit PuzzleOut

/-- `generatePuzzle(difficulty)`: set the difficulty, build a complete
grid, copy it as the solution, remove clues (this is where an
unrecognized difficulty throws), store the initial state and return the
puzzle. -/
def generatePuzzle (e : Engine) (rng : Rng) (difficulty : String) : GenResult :=
  let e1 := { e with difficulty := difficulty }
  let gen := generateCompleteGrid rng
  let e2 := { e1 with grid := gen.1, solution := gen.1 }
  match difficultySettings difficulty with
  | none => { engine := e2, rng := gen.2, result := Except.error () }
  | some clues =>
    let loopRes := createPuzzleLoop 1000 0 (81 - clues) gen.2 gen.1
    let e3 := { e2 with grid := loopRes.1, initialGrid := loopRes.1 }
    { engine := e3, rng := loopRes.2.1,
      result := Except.ok
        { grid := loopRes.1, solution := e2.solution, difficulty := difficulty } }

/-- Result of `solveCurrentPuzzle`: `{success, solution, steps}`. -/
structure SolveResult where
  success : Bool
  solution : Option Grid
  steps : List Step

/-- `solveCurrentPuzzle()`: solve a copy of the current grid with
`solvePuzzleWithSteps`, reporting success through a boolean flag and
keeping only the placement steps. -/
def solveCurrentPuzzle (e : Engine) : SolveResult :=
  let res := solvePuzzleWithSteps e.grid []
  { success := res.1.isSome, solution := res.1,
    steps := res.2.filter fun s => s.type == StepType.place }

/-- One error entry `{row, col, value}` of `validatePuzzle`. -/
structure VErr where
  row : Fin 9
  col : Fin 9
  value : Nat
deriving DecidableEq

/-- The `{isValid, errors}` object returned by `validatePuzzle`. -/
structure ValidationResult where
  isValid : Bool
  errors : List VErr
deriving DecidableEq

/-- The body of the `validatePuzzle` double loop at one cell: if the cell
is filled, temporarily clear it, test its value with `isValidMove`,
record an error on failure, and restore the cell. -/
def validateCell (s : Grid × List VErr) (p : Fin 9 × Fin 9) :
    Grid × List VErr :=
  if s.1 p.1 p.2 ≠ 0 then
    let num := s.1 p.1 p.2
    let cleared := setCell s.1 p.1 p.2 0
    let errs := if isValidMove cleared p.1 p.2 num then s.2
      else s.2 ++ [⟨p.1, p.2, num⟩]
    (setCell cleared p.1 p.2 num, errs)
  else s

/-- `validatePuzzle(grid)` together with the final state of its (mutated
and restored) grid argument. -/
def validatePuzzleSt (grid : Grid) : ValidationResult × Grid :=
  let st := cellsList.foldl validateCell (grid, [])
  ({ isValid := st.2.length == 0, errors := st.2 }, st.1)

/-- `validatePuzzle(grid)`: the returned `{isValid, errors}` object. -/
def validatePuzzle (grid : Grid) : ValidationResult :=
  (validatePuzzleSt grid).1

/-- `isComplete(grid)`: no empty cell remains and the grid validates. -/
def isComplete (grid : Grid) : Bool :=
  (cellsList.all fun p => grid p.1 p.2 != 0) && (validatePuzzle grid).isValid

/-- A hint `{row, col, value}`. -/
structure Hint where
  row : Fin 9
  col : Fin 9
  value : Nat
deriving DecidableEq

/-- The empty cells of a grid in row-major order (the `emptyCells` array
collected by `getHint`). -/
def emptyCellsL (grid : Grid) : List (Fin 9 × Fin 9) :=
  cellsList.filter fun p => grid p.1 p.2 == 0

/-- The `for (let cell of emptyCells)` loop of `getHint`: track the cell
with the fewest possibilities seen so far, breaking as soon as the
minimum drops to exactly 1. -/
def hintLoop (grid : Grid) :
    List (Fin 9 × Fin 9) → Option (Fin 9 × Fin 9) → Nat →
    Option (Fin 9 × Fin 9)
  | [], bestCell, _ => bestCell
  | cell :: rest, bestCell, minPossibilities =>
    let possibilities := getPossibleValues grid cell.1 cell.2
    if possibilities.length < minPossibilities then
      if possibilities.length == 1 then some cell
      else hintLoop grid rest (some cell) possibilities.length
    else hintLoop grid rest bestCell minPossibilities

/-- `getHint(grid)`: pick the most constrained empty cell and return it
with the value of the stored solution at those coordinates. -/
def getHint (solution : Grid) (grid : Grid) : Option Hint :=
  let emptyCells := emptyCellsL grid
  if emptyCells.isEmpty then none
  else
    match hintLoop grid emptyCells none 10 with
    | some bestCell =>
      some ⟨bestCell.1, bestCell.2, solution bestCell.1 bestCell.2⟩
    | none => none

/-- Candidate count of a cell, as used by `getHint`. -/
def countPoss (grid : Grid) (p : Fin 9 × Fin 9) : Nat :=
  (getPossibleValues grid p.1 p.2).length

/-- Specification-side description of the cell `getHint` chooses: the
first empty cell with at most one candidate if one exists, otherwise the
first empty cell attaining the minimum candidate count. -/
def hintChoiceCell (grid : Grid) : Option (Fin 9 × Fin 9) :=
  match (emptyCellsL grid).find? (fun p => decide (countPoss grid p ≤ 1)) with
  | some p => some p
  | none => (emptyCellsL grid).find? fun p =>
      decide (∀ q ∈ emptyCellsL grid, countPoss grid p ≤ countPoss grid q)

/-- A grid has no empty cell. -/
def gridComplete (g : Grid) : Prop := ∀ r c : Fin 9, g r c ≠ 0

/-- All cell values lie in [0, 9]. -/
def gridRange (g : Grid) : Prop := ∀ r c : Fin 9, g r c ≤ 9

/-- No two distinct cells of the same row, column or 3x3 box hold the
same nonzero value (the Sudoku constraints for partially filled grids). -/
def gridOk (g : Grid) : Prop :=
  ∀ r1 c1 r2 c2 : Fin 9, (r1, c1) ≠ (r2, c2) →
    (r1 = r2 ∨ c1 = c2 ∨ (r1.val / 3 = r2.val / 3 ∧ c1.val / 3 = c2.val / 3)) →
    g r1 c1 ≠ 0 → g r1 c1 ≠ g r2 c2

/-- `s` agrees with `g` on every filled cell of `g`. -/
def gridExtends (g s : Grid) : Prop :=
  ∀ r c : Fin 9, g r c ≠ 0 → s r c = g r c

/-- `s` is a constraint-satisfying completion of `g`: it extends `g`, is
complete, satisfies the Sudoku constraints and uses values 1..9. -/
def IsCompletion (g s : Grid) : Prop :=
  gridExtends g s ∧ gridComplete s ∧ gridOk s ∧ gridRange s

/-- What the backtracking solvers guarantee about a returned grid: it
extends the input, is complete, and preserves the constraints and the
value range of the input. -/
def SolvedFrom (g s : Grid) : Prop :=
  gridExtends g s ∧ gridComplete s ∧ (gridOk g → gridOk s) ∧
    (gridRange g → gridRange s)

instance : DecidablePred gridComplete := by
  intro g; unfold gridComplete; infer_instance

instance : DecidablePred gridRange := by
  intro g; unfold gridRange; infer_instance

instance : DecidablePred gridOk := by
  intro g; unfold gridOk; infer_instance

instance (g : Grid) : Decidable (gridExtends g s) := by
  unfold gridExtends; infer_instance

/-- The canonical solved grid of the specification. -/
def canonRows : List (List Nat) :=
  [[5,3,4,6,7,8,9,1,2],[6,7,2,1,9,5,3,4,8],[1,9,8,3,4,2,5,6,7],
   [8,5,9,7,6,1,4,2,3],[4,2,6,8,5,3,7,9,1],[7,1,3,9,2,4,8,5,6],
   [9,6,1,5,3,7,2,8,4],[2,8,7,4,1,9,6,3,5],[3,4,5,2,8,6,1,7,9]]

/-- The canonical solved grid of the specification, as a grid. -/
def canonicalGrid : Grid := fun r c => (canonRows.getD r.val []).getD c.val 0

/-- The canonical grid with cell (0,0) changed from 5 to 3: a complete
grid that violates the row constraint, hence has no completion. -/
def gBad : Grid := setCell canonicalGrid 0 0 3

/-- Engine state holding `gBad` as the current grid. -/
def engineBad : Engine :=
  { grid := gBad, solution := canonicalGrid, initialGrid := canonicalGrid,
    difficulty := "easy" }

/-- The canonical grid with cell (8,0) changed to 9 and cells (0,0) and
(8,8) cleared: cell (0,0) has exactly one candidate while cell (8,8) has
none. -/
def gC6 : Grid := setCell (setCell (setCell canonicalGrid 8 0 9) 0 0 0) 8 8 0

/-- Two cells share a row, a column, or a 3x3 box. -/
def sameUnit (r1 c1 r2 c2 : Fin 9) : Prop :=
  r1 = r2 ∨ c1 = c2 ∨ (r1.val / 3 = r2.val / 3 ∧ c1.val / 3 = c2.val / 3)

theorem mem_cellsList (p : Fin 9 × Fin 9) : p ∈ cellsList := by
  rcases p with ⟨r, c⟩
  simp [cellsList]

theorem setCell_same (g : Grid) (r c : Fin 9) (v : Nat) :
    setCell g r c v r c = v := by
  simp [setCell]

theorem setCell_other (g : Grid) (r c : Fin 9) (v : Nat) {r' c' : Fin 9}
    (h : ¬(r' = r ∧ c' = c)) : setCell g r c v r' c' = g r' c' := by
  simp [setCell, h]

theorem setCell_restore (g : Grid) (r c : Fin 9) :
    setCell (setCell g r c 0) r c (g r c) = g := by
  funext r' c'
  by_cases h : r' = r ∧ c' = c
  · rcases h with ⟨h1, h2⟩
    subst h1; subst h2
    simp [setCell]
  · simp [setCell, h]

theorem findEmptyCell_some {g : Grid} {rc : Fin 9 × Fin 9}
    (h : findEmptyCell g = some rc) : g rc.1 rc.2 = 0 := by
  have h2 := List.find?_some h
  simpa using h2

theorem findEmptyCell_none_iff {g : Grid} :
    findEmptyCell g = none ↔ gridComplete g := by
  unfold findEmptyCell gridComplete
  rw [List.find?_eq_none]
  constructor
  · intro h r c
    have := h (r, c) (mem_cellsList _)
    simpa using this
  · intro h p _
    simpa using h p.1 p.2

theorem numEmpty_pos {g : Grid} {r c : Fin 9} (h : g r c = 0) :
    0 < numEmpty g := by
  apply Finset.card_pos.mpr
  exact ⟨(r, c), by simp [h]⟩

theorem numEmpty_setCell_lt {g : Grid} {r c : Fin 9} {v : Nat}
    (h : g r c = 0) (hv : v ≠ 0) :
    numEmpty (setCell g r c v) < numEmpty g := by
  apply Finset.card_lt_card
  constructor
  · intro p hp
    simp only [Finset.mem_filter, Finset.mem_univ, true_and, setCell] at hp ⊢
    split at hp
    · exact absurd hp hv
    · exact hp
  · intro hsub
    have h1 : (r, c) ∈ Finset.univ.filter
        fun p : Fin 9 × Fin 9 => g p.1 p.2 = 0 := by simp [h]
    have h2 := hsub h1
    simp [setCell] at h2
    exact absurd h2 hv

theorem mem_nums1to9 {n : Nat} : n ∈ nums1to9 ↔ 1 ≤ n ∧ n ≤ 9 := by
  simp [nums1to9]
  omega

theorem isValidMove_iff {g : Grid} {r c : Fin 9} {n : Nat} :
    isValidMove g r c n = true ↔
      ∀ r2 c2 : Fin 9, sameUnit r c r2 c2 → g r2 c2 ≠ n := by
  unfold isValidMove
  simp only [Bool.and_eq_true, List.all_eq_true, List.mem_finRange,
    forall_const, bne_iff_ne, ne_eq]
  constructor
  · rintro ⟨⟨hrow, hcol⟩, hbox⟩ r2 c2 hu
    rcases hu with h | h | ⟨h1, h2⟩
    · subst h; exact hrow c2
    · subst h; exact hcol r2
    · have hr2 : r2.val % 3 < 3 := Nat.mod_lt _ (by omega)
      have hc2 : c2.val % 3 < 3 := Nat.mod_lt _ (by omega)
      have hb := hbox ⟨r2.val % 3, hr2⟩ ⟨c2.val % 3, hc2⟩
      have e1 : (⟨r2.val % 3 + (r.val - r.val % 3), by
          have := r.isLt; omega⟩ : Fin 9) = r2 := by
        apply Fin.ext
        simp only []
        have := r.isLt
        have := r2.isLt
        omega
      have e2 : (⟨c2.val % 3 + (c.val - c.val % 3), by
          have := c.isLt; omega⟩ : Fin 9) = c2 := by
        apply Fin.ext
        simp only []
        have := c.isLt
        have := c2.isLt
        omega
      rw [e1, e2] at hb
      exact hb
  · intro h
    refine ⟨⟨fun x => ?_, fun x => ?_⟩, fun i j => ?_⟩
    · exact h r x (Or.inl rfl)
    · exact h x c (Or.inr (Or.inl rfl))
    · apply h
      right; right
      constructor
      · simp only []
        have := i.isLt
        have := r.isLt
        omega
      · simp only []
        have := j.isLt
        have := c.isLt
        omega

theorem isValidMove_self_ne {g : Grid} {r c : Fin 9} {n : Nat}
    (h : isValidMove g r c n = true) : g r c ≠ n :=
  isValidMove_iff.mp h r c (Or.inl rfl)

theorem isValidMove_nonzero {g : Grid} {r c : Fin 9} {n : Nat}
    (hE : g r c = 0) (h : isValidMove g r c n = true) : n ≠ 0 := by
  intro h0
  exact isValidMove_self_ne h (by rw [hE, h0])

theorem gridExtends_refl (g : Grid) : gridExtends g g := fun _ _ _ => rfl

theorem gridExtends_trans {g h s : Grid} (h1 : gridExtends g h)
    (h2 : gridExtends h s) : gridExtends g s := by
  intro r c hn
  rw [h2 r c, h1 r c hn]
  rw [h1 r c hn]
  exact hn

theorem gridExtends_setCell {g : Grid} {r c : Fin 9} {v : Nat}
    (h : g r c = 0) : gridExtends g (setCell g r c v) := by
  intro r' c' hn
  apply setCell_other
  rintro ⟨h1, h2⟩
  subst h1; subst h2
  exact hn h

theorem complete_extends_eq {g s : Grid} (hc : gridComplete g)
    (he : gridExtends g s) : s = g := by
  funext r c
  exact he r c (hc r c)

theorem gridOk_of_extends {g s : Grid} (he : gridExtends g s)
    (hs : gridOk s) : gridOk g := by
  intro r1 c1 r2 c2 hne hu h1 heq
  have hz2 : g r2 c2 ≠ 0 := by rw [← heq]; exact h1
  have e1 := he r1 c1 h1
  have e2 := he r2 c2 hz2
  exact hs r1 c1 r2 c2 hne hu (by rw [e1]; exact h1) (by rw [e1, e2, heq])

theorem gridRange_of_extends {g s : Grid} (he : gridExtends g s)
    (hs : gridRange s) : gridRange g := by
  intro r c
  by_cases h : g r c = 0
  · rw [h]; omega
  · rw [← he r c h]; exact hs r c

theorem gridOk_empty : gridOk emptyGrid := by
  intro r1 c1 r2 c2 _ _ h1
  exact absurd rfl h1

theorem gridRange_empty : gridRange emptyGrid := by
  intro r c
  simp [emptyGrid]

theorem gridOk_setCell {g : Grid} {r c : Fin 9} {n : Nat} (hok : gridOk g)
    (hE : g r c = 0) (hv : isValidMove g r c n = true) :
    gridOk (setCell g r c n) := by
  have hall := isValidMove_iff.mp hv
  intro r1 c1 r2 c2 hne hu h1 heq
  by_cases e1 : r1 = r ∧ c1 = c
  · rcases e1 with ⟨e1a, e1b⟩
    subst e1a; subst e1b
    have e2 : ¬(r2 = r1 ∧ c2 = c1) := by
      rintro ⟨ha, hb⟩
      exact hne (by rw [ha, hb])
    rw [setCell_other _ _ _ _ e2] at heq
    rw [setCell_same] at heq h1
    have hu2 : sameUnit r1 c1 r2 c2 := hu
    exact hall r2 c2 hu2 heq.symm
  · rw [setCell_other _ _ _ _ e1] at h1 heq
    by_cases e2 : r2 = r ∧ c2 = c
    · rcases e2 with ⟨e2a, e2b⟩
      subst e2a; subst e2b
      rw [setCell_same] at heq
      have hu2 : sameUnit r2 c2 r1 c1 := by
        rcases hu with h | h | ⟨ha, hb⟩
        · exact Or.inl h.symm
        · exact Or.inr (Or.inl h.symm)
        · exact Or.inr (Or.inr ⟨ha.symm, hb.symm⟩)
      exact hall r1 c1 hu2 heq
    · rw [setCell_other _ _ _ _ e2] at heq
      exact hok r1 c1 r2 c2 hne hu h1 heq

theorem gridRange_setCell {g : Grid} {r c : Fin 9} {n : Nat}
    (hr : gridRange g) (hn : n ≤ 9) : gridRange (setCell g r c n) := by
  intro r' c'
  by_cases h : r' = r ∧ c' = c
  · rcases h with ⟨h1, h2⟩; subst h1; subst h2
    rw [setCell_same]; exact hn
  · rw [setCell_other _ _ _ _ h]; exact hr r' c'

theorem completion_value_valid {g s : Grid} {r c : Fin 9}
    (hs : IsCompletion g s) (hE : g r c = 0) :
    isValidMove g r c (s r c) = true := by
  rcases hs with ⟨he, hc, hok, -⟩
  rw [isValidMove_iff]
  intro r2 c2 hu heq
  have hz : g r2 c2 ≠ 0 := by
    intro h0
    rw [h0] at heq
    exact hc r c heq.symm
  have hne : (r2, c2) ≠ (r, c) := by
    intro h0
    injection h0 with ha hb
    subst ha; subst hb
    exact hz hE
  have hu2 : sameUnit r2 c2 r c := by
    rcases hu with h | h | ⟨ha, hb⟩
    · exact Or.inl h.symm
    · exact Or.inr (Or.inl h.symm)
    · exact Or.inr (Or.inr ⟨ha.symm, hb.symm⟩)
  have e2 := he r2 c2 hz
  exact hok r2 c2 r c hne hu2 (by rw [e2]; exact hz) (by rw [e2, heq])

theorem completion_prune {g s : Grid} {r c : Fin 9} {n : Nat}
    (hE : g r c = 0) (hv : isValidMove g r c n = false)
    (hs : IsCompletion g s) : s r c ≠ n := by
  intro hval
  have := completion_value_valid hs hE
  rw [hval] at this
  rw [this] at hv
  cases hv

theorem completion_setCell_iff {g s : Grid} {r c : Fin 9} {n : Nat}
    (hE : g r c = 0) (hn : n ≠ 0) :
    IsCompletion (setCell g r c n) s ↔ IsCompletion g s ∧ s r c = n := by
  constructor
  · rintro ⟨he, hc, hok, hr⟩
    have hval : s r c = n := by
      have := he r c (by rw [setCell_same]; exact hn)
      rw [setCell_same] at this
      exact this
    refine ⟨⟨?_, hc, hok, hr⟩, hval⟩
    intro r' c' hz
    have hne : ¬(r' = r ∧ c' = c) := by
      rintro ⟨h1, h2⟩
      subst h1; subst h2
      exact hz hE
    have := he r' c' (by rw [setCell_other _ _ _ _ hne]; exact hz)
    rw [setCell_other _ _ _ _ hne] at this
    exact this
  · rintro ⟨⟨he, hc, hok, hr⟩, hval⟩
    refine ⟨?_, hc, hok, hr⟩
    intro r' c' hz
    by_cases hcell : r' = r ∧ c' = c
    · rcases hcell with ⟨h1, h2⟩
      subst h1; subst h2
      rw [setCell_same, hval]
    · rw [setCell_other _ _ _ _ hcell] at hz ⊢
      exact he r' c' hz

theorem completion_mem_nums {g s : Grid} (hs : IsCompletion g s)
    (r c : Fin 9) : s r c ∈ nums1to9 := by
  rw [mem_nums1to9]
  have h1 := hs.2.1 r c
  have h2 := hs.2.2.2 r c
  omega

theorem randBelow_lt (rng : Rng) {n : Nat} (hn : 0 < n) :
    (randBelow rng n).1 < n := by
  cases rng with
  | nil => simpa [randBelow] using hn
  | cons x rest => simpa [randBelow] using Nat.mod_lt x hn

theorem listSwap_length {α : Type} [Inhabited α] (l : List α) (i j : Nat) :
    (listSwap l i j).length = l.length := by
  simp [listSwap]

theorem listSwap_get {α : Type} [Inhabited α] {l : List α} {i j : Nat}
    (hi : i < l.length) (hj : j < l.length) (m : Nat)
    (hm : m < (listSwap l i j).length) :
    (listSwap l i j).get ⟨m, hm⟩ =
      if m = j then l.get ⟨i, hi⟩
      else if m = i then l.get ⟨j, hj⟩
      else l.get ⟨m, by rw [listSwap_length] at hm; exact hm⟩ := by
  simp only [List.get_eq_getElem, listSwap, List.getElem_set]
  split_ifs <;>
    first
      | omega
      | (rw [List.getD_eq_getElem _ _ hi])
      | (rw [List.getD_eq_getElem _ _ hj])
      | rfl

theorem listSwap_mem {α : Type} [Inhabited α] {l : List α} {i j : Nat}
    (hi : i < l.length) (hj : j < l.length) (x : α) :
    x ∈ listSwap l i j ↔ x ∈ l := by
  rw [List.mem_iff_get, List.mem_iff_get]
  constructor
  · rintro ⟨n, rfl⟩
    rw [listSwap_get hi hj n.val n.isLt]
    split_ifs
    · exact ⟨⟨i, hi⟩, rfl⟩
    · exact ⟨⟨j, hj⟩, rfl⟩
    · exact ⟨_, rfl⟩
  · rintro ⟨n, rfl⟩
    by_cases hni : n.val = i
    · refine ⟨⟨j, by rw [listSwap_length]; exact hj⟩, ?_⟩
      rw [listSwap_get hi hj j (by rw [listSwap_length]; exact hj)]
      have he : (⟨i, hi⟩ : Fin l.length) = n := Fin.ext hni.symm
      simp [he]
    · by_cases hnj : n.val = j
      · refine ⟨⟨i, by rw [listSwap_length]; exact hi⟩, ?_⟩
        rw [listSwap_get hi hj i (by rw [listSwap_length]; exact hi)]
        have hij : i ≠ j := fun h => hni (h ▸ hnj)
        have he : (⟨j, hj⟩ : Fin l.length) = n := Fin.ext hnj.symm
        simp [hij, he]
      · refine ⟨⟨n.val, by rw [listSwap_length]; exact n.isLt⟩, ?_⟩
        rw [listSwap_get hi hj n.val (by rw [listSwap_length]; exact n.isLt)]
        simp only [hni, hnj, if_false]

theorem listSwap_nodup {α : Type} [Inhabited α] {l : List α} {i j : Nat}
    (hi : i < l.length) (hj : j < l.length) (hl : l.Nodup) :
    (listSwap l i j).Nodup := by
  rw [List.nodup_iff_injective_get] at hl ⊢
  intro m1 m2 heq
  rw [listSwap_get hi hj m1.val m1.isLt, listSwap_get hi hj m2.val m2.isLt] at heq
  have hm1 := m1.isLt
  have hm2 := m2.isLt
  split_ifs at heq <;>
    (have hv := congrArg Fin.val (hl heq); simp only [] at hv;
     apply Fin.ext; omega)

theorem shuffleGo_length {α : Type} [Inhabited α] (rng : Rng) (l : List α)
    (k : Nat) : (shuffleGo rng l k).1.length = l.length := by
  induction k generalizing rng l with
  | zero => rfl
  | succ k ih =>
    unfold shuffleGo
    rw [ih, listSwap_length]

theorem shuffleGo_mem {α : Type} [Inhabited α] (rng : Rng) (l : List α)
    (k : Nat) (hk : k < l.length) (x : α) :
    x ∈ (shuffleGo rng l k).1 ↔ x ∈ l := by
  induction k generalizing rng l with
  | zero => rfl
  | succ k ih =>
    unfold shuffleGo
    have hj : (randBelow rng (k + 2)).1 < l.length := by
      have := randBelow_lt rng (n := k + 2) (by omega)
      omega
    rw [ih _ _ (by rw [listSwap_length]; omega)]
    exact listSwap_mem hk hj x

theorem shuffleGo_nodup {α : Type} [Inhabited α] (rng : Rng) (l : List α)
    (k : Nat) (hk : k < l.length) (hl : l.Nodup) :
    (shuffleGo rng l k).1.Nodup := by
  induction k generalizing rng l with
  | zero => exact hl
  | succ k ih =>
    unfold shuffleGo
    have hj : (randBelow rng (k + 2)).1 < l.length := by
      have := randBelow_lt rng (n := k + 2) (by omega)
      omega
    exact ih _ _ (by rw [listSwap_length]; omega) (listSwap_nodup hk hj hl)

theorem shuffleArray_length {α : Type} [Inhabited α] (rng : Rng)
    (l : List α) : (shuffleArray rng l).1.length = l.length :=
  shuffleGo_length rng l (l.length - 1)

theorem shuffleArray_mem {α : Type} [Inhabited α] (rng : Rng) (l : List α)
    (x : α) : x ∈ (shuffleArray rng l).1 ↔ x ∈ l := by
  cases l with
  | nil =>
    simp [shuffleArray, shuffleGo]
  | cons a t =>
    exact shuffleGo_mem rng (a :: t) ((a :: t).length - 1) (by simp) x

theorem shuffleArray_nodup {α : Type} [Inhabited α] (rng : Rng)
    (l : List α) (hl : l.Nodup) : (shuffleArray rng l).1.Nodup := by
  cases l with
  | nil =>
    simp [shuffleArray, shuffleGo]
  | cons a t =>
    exact shuffleGo_nodup rng (a :: t) ((a :: t).length - 1) (by simp) hl

theorem gridComplete_of_numEmpty {g : Grid} (h : numEmpty g = 0) :
    gridComplete g := by
  intro r c hz
  have hmem : (r, c) ∈ Finset.univ.filter
      fun p : Fin 9 × Fin 9 => g p.1 p.2 = 0 := by simp [hz]
  rw [Finset.card_eq_zero.mp h] at hmem
  simp at hmem

theorem SolvedFrom_of_complete {g : Grid} (h : findEmptyCell g = none) :
    SolvedFrom g g :=
  ⟨gridExtends_refl g, findEmptyCell_none_iff.mp h, id, id⟩

theorem solvePuzzle_sound_aux : ∀ k : Nat,
    (∀ g rng s rng2, numEmpty g ≤ k → solvePuzzle rng g = (some s, rng2) →
      SolvedFrom g s) ∧
    (∀ g r c h rng nums s rng2, numEmpty g ≤ k → (∀ n ∈ nums, n ≤ 9) →
      tryNums rng g r c h nums = (some s, rng2) → SolvedFrom g s) := by
  intro k
  induction k with
  | zero =>
    constructor
    · intro g rng s rng2 hk hres
      unfold solvePuzzle at hres
      split at hres
      · injection hres with h1 h2
        injection h1 with h1
        subst h1
        exact SolvedFrom_of_complete (by assumption)
      · rename_i rc hE
        have := numEmpty_pos (findEmptyCell_some hE)
        omega
    · intro g r c h rng nums s rng2 hk _ _
      have := numEmpty_pos h
      omega
  | succ k ih =>
    have htry : ∀ g r c h rng nums s rng2, numEmpty g ≤ k + 1 →
        (∀ n ∈ nums, n ≤ 9) →
        tryNums rng g r c h nums = (some s, rng2) → SolvedFrom g s := by
      intro g r c h rng nums
      induction nums generalizing rng with
      | nil =>
        intro s rng2 _ _ hres
        unfold tryNums at hres
        cases hres
      | cons num rest ihn =>
        intro s rng2 hk hn hres
        unfold tryNums at hres
        split at hres
        · rename_i hv
          split at hres
          · rename_i solved rng3 hrec
            injection hres with h1 h2
            injection h1 with h1
            subst h1
            have hnum0 : num ≠ 0 := isValidMove_nonzero h hv
            have hlt := numEmpty_setCell_lt h hnum0
            have hsub := (ih).1 (setCell g r c num) rng solved rng3
              (by omega) hrec
            rcases hsub with ⟨he, hc, hok, hr⟩
            refine ⟨gridExtends_trans (gridExtends_setCell h) he, hc, ?_, ?_⟩
            · intro hokg
              exact hok (gridOk_setCell hokg h hv)
            · intro hrg
              exact hr (gridRange_setCell hrg (hn num (by simp)))
          · rename_i rng3 hrec
            exact ihn rng3 s rng2 hk (fun n hn2 => hn n (by simp [hn2])) hres
        · exact ihn rng s rng2 hk (fun n hn2 => hn n (by simp [hn2])) hres
    constructor
    · intro g rng s rng2 hk hres
      unfold solvePuzzle at hres
      split at hres
      · injection hres with h1 h2
        injection h1 with h1
        subst h1
        exact SolvedFrom_of_complete (by assumption)
      · rename_i rc hE
        refine htry g rc.1 rc.2 _ _ _ s rng2 hk ?_ hres
        intro n hmem
        have := (shuffleArray_mem rng nums1to9 n).mp hmem
        exact (mem_nums1to9.mp this).2
    · exact htry

theorem solvePuzzle_sound {g s : Grid} {rng rng2 : Rng}
    (h : solvePuzzle rng g = (some s, rng2)) : SolvedFrom g s :=
  (solvePuzzle_sound_aux (numEmpty g)).1 g rng s rng2 (Nat.le_refl _) h

theorem solvePuzzle_complete_aux : ∀ k : Nat,
    (∀ g rng sol, numEmpty g ≤ k → IsCompletion g sol →
      (solvePuzzle rng g).1.isSome) ∧
    (∀ g r c h sol rng nums, numEmpty g ≤ k → IsCompletion g sol →
      sol r c ∈ nums → (tryNums rng g r c h nums).1.isSome) := by
  intro k
  induction k with
  | zero =>
    constructor
    · intro g rng sol hk _
      unfold solvePuzzle
      split
      · rfl
      · rename_i rc hE
        have := numEmpty_pos (findEmptyCell_some hE)
        omega
    · intro g r c h sol rng nums hk _ _
      have := numEmpty_pos h
      omega
  | succ k ih =>
    have htry : ∀ g r c h sol rng nums, numEmpty g ≤ k + 1 →
        IsCompletion g sol → sol r c ∈ nums →
        (tryNums rng g r c h nums).1.isSome := by
      intro g r c h sol rng nums
      induction nums generalizing rng with
      | nil =>
        intro _ _ hmem
        cases hmem
      | cons num rest ihn =>
        intro hk hsol hmem
        unfold tryNums
        split
        · rename_i hv
          have hnum0 : num ≠ 0 := isValidMove_nonzero h hv
          have hlt := numEmpty_setCell_lt h hnum0
          split
          · simp
          · rename_i rng3 hrec
            have hne : sol r c ≠ num := by
              intro hvn
              have hcomp : IsCompletion (setCell g r c num) sol :=
                (completion_setCell_iff h hnum0).mpr ⟨hsol, hvn⟩
              have := (ih).1 (setCell g r c num) rng sol (by omega) hcomp
              rw [hrec] at this
              simp at this
            have : sol r c ∈ rest := by
              rcases List.mem_cons.mp hmem with h1 | h1
              · exact absurd h1 hne
              · exact h1
            exact ihn rng3 hk hsol this
        · rename_i hv
          have hne : sol r c ≠ num := by
            intro hvn
            have := completion_prune h (Bool.eq_false_iff.mpr hv) hsol
            exact this hvn
          have : sol r c ∈ rest := by
            rcases List.mem_cons.mp hmem with h1 | h1
            · exact absurd h1 hne
            · exact h1
          exact ihn rng hk hsol this
    constructor
    · intro g rng sol hk hsol
      unfold solvePuzzle
      split
      · rfl
      · rename_i rc hE
        apply htry g rc.1 rc.2 _ sol _ _ hk hsol
        rw [shuffleArray_mem]
        exact completion_mem_nums hsol rc.1 rc.2
    · exact htry

theorem solvePuzzle_isSome {g : Grid} (rng : Rng) {sol : Grid}
    (h : IsCompletion g sol) : (solvePuzzle rng g).1.isSome :=
  (solvePuzzle_complete_aux (numEmpty g)).1 g rng sol (Nat.le_refl _) h

theorem sws_sound_aux : ∀ k : Nat,
    (∀ g steps s steps2, numEmpty g ≤ k →
      solvePuzzleWithSteps g steps = (some s, steps2) → SolvedFrom g s) ∧
    (∀ g r c h steps nums s steps2, numEmpty g ≤ k → (∀ n ∈ nums, n ≤ 9) →
      swsTry g r c h steps nums = (some s, steps2) → SolvedFrom g s) := by
  intro k
  induction k with
  | zero =>
    constructor
    · intro g steps s steps2 hk hres
      unfold solvePuzzleWithSteps at hres
      split at hres
      · injection hres with h1 h2
        injection h1 with h1
        subst h1
        exact SolvedFrom_of_complete (by assumption)
      · rename_i rc hE
        have := numEmpty_pos (findEmptyCell_some hE)
        omega
    · intro g r c h steps nums s steps2 hk _ _
      have := numEmpty_pos h
      omega
  | succ k ih =>
    have htry : ∀ g r c h steps nums s steps2, numEmpty g ≤ k + 1 →
        (∀ n ∈ nums, n ≤ 9) →
        swsTry g r c h steps nums = (some s, steps2) → SolvedFrom g s := by
      intro g r c h steps nums
      induction nums generalizing steps with
      | nil =>
        intro s steps2 _ _ hres
        unfold swsTry at hres
        cases hres
      | cons num rest ihn =>
        intro s steps2 hk hn hres
        unfold swsTry at hres
        split at hres
        · rename_i hv
          split at hres
          · rename_i solved st3 hrec
            injection hres with h1 h2
            injection h1 with h1
            subst h1
            have hnum0 : num ≠ 0 := isValidMove_nonzero h hv
            have hlt := numEmpty_setCell_lt h hnum0
            have hsub := (ih).1 (setCell g r c num) _ solved st3 (by omega) hrec
            rcases hsub with ⟨he, hc, hok, hr⟩
            refine ⟨gridExtends_trans (gridExtends_setCell h) he, hc, ?_, ?_⟩
            · intro hokg
              exact hok (gridOk_setCell hokg h hv)
            · intro hrg
              exact hr (gridRange_setCell hrg (hn num (by simp)))
          · rename_i st3 hrec
            exact ihn _ s steps2 hk (fun n hn2 => hn n (by simp [hn2])) hres
        · exact ihn _ s steps2 hk (fun n hn2 => hn n (by simp [hn2])) hres
    constructor
    · intro g steps s steps2 hk hres
      unfold solvePuzzleWithSteps at hres
      split at hres
      · injection hres with h1 h2
        injection h1 with h1
        subst h1
        exact SolvedFrom_of_complete (by assumption)
      · rename_i rc hE
        refine htry g rc.1 rc.2 _ _ _ s steps2 hk ?_ hres
        intro n hmem
        exact (mem_nums1to9.mp hmem).2
    · exact htry

theorem solvePuzzleWithSteps_sound {g s : Grid} {steps steps2 : List Step}
    (h : solvePuzzleWithSteps g steps = (some s, steps2)) : SolvedFrom g s :=
  (sws_sound_aux (numEmpty g)).1 g steps s steps2 (Nat.le_refl _) h

theorem groupIdx_nodup (grp : Fin 3) : (groupIdx grp).Nodup := by
  simp [groupIdx, Fin.ext_iff]

theorem groupIdx_length (grp : Fin 3) : (groupIdx grp).length = 3 := rfl

theorem groupIdx_mem_iff {grp : Fin 3} {x : Fin 9} :
    x ∈ groupIdx grp ↔ x.val / 3 = grp.val := by
  have := x.isLt
  have := grp.isLt
  simp [groupIdx, Fin.ext_iff]
  omega

theorem gridOk_rowRemap {g : Grid} {f : Fin 9 → Fin 9}
    (hinj : Function.Injective f) (hband : ∀ r, (f r).val / 3 = r.val / 3)
    (hok : gridOk g) : gridOk fun r c => g (f r) c := by
  intro r1 c1 r2 c2 hne hu h1 heq
  apply hok (f r1) c1 (f r2) c2
  · intro hpair
    injection hpair with ha hb
    exact hne (by rw [hinj ha, hb])
  · rcases hu with h | h | ⟨ha, hb⟩
    · exact Or.inl (by rw [h])
    · exact Or.inr (Or.inl h)
    · exact Or.inr (Or.inr ⟨by rw [hband, hband, ha], hb⟩)
  · exact h1
  · exact heq

theorem gridOk_colRemap {g : Grid} {f : Fin 9 → Fin 9}
    (hinj : Function.Injective f) (hband : ∀ cx, (f cx).val / 3 = cx.val / 3)
    (hok : gridOk g) : gridOk fun r c => g r (f c) := by
  intro r1 c1 r2 c2 hne hu h1 heq
  apply hok r1 (f c1) r2 (f c2)
  · intro hpair
    injection hpair with ha hb
    exact hne (by rw [ha, hinj hb])
  · rcases hu with h | h | ⟨ha, hb⟩
    · exact Or.inl h
    · exact Or.inr (Or.inl (by rw [h]))
    · exact Or.inr (Or.inr ⟨ha, by rw [hband, hband, hb]⟩)
  · exact h1
  · exact heq

theorem shuffleMap_props {grp : Fin 3} {sh : List (Fin 9)}
    (hlen : sh.length = 3) (hnd : sh.Nodup)
    (hmem : ∀ x ∈ sh, x ∈ groupIdx grp) :
    Function.Injective
      (fun r : Fin 9 =>
        if r.val / 3 = grp.val then sh.getD (r.val % 3) r else r) ∧
    ∀ r : Fin 9,
      ((fun r : Fin 9 =>
        if r.val / 3 = grp.val then sh.getD (r.val % 3) r else r) r).val / 3 =
        r.val / 3 := by
  have hget : ∀ (r : Fin 9), r.val / 3 = grp.val →
      ∃ hidx : r.val % 3 < sh.length,
        sh.getD (r.val % 3) r = sh.get ⟨r.val % 3, hidx⟩ := by
    intro r _
    have hidx : r.val % 3 < sh.length := by
      rw [hlen]; exact Nat.mod_lt _ (by omega)
    exact ⟨hidx, by
      rw [List.getD_eq_getElem _ _ hidx, List.get_eq_getElem]⟩
  have hin : ∀ (r : Fin 9), r.val / 3 = grp.val →
      (sh.getD (r.val % 3) r).val / 3 = grp.val := by
    intro r hr
    obtain ⟨hidx, hEq⟩ := hget r hr
    rw [hEq]
    exact groupIdx_mem_iff.mp (hmem _ (List.get_mem sh _ hidx))
  constructor
  · intro a b heq
    simp only [] at heq
    by_cases pa : a.val / 3 = grp.val <;> by_cases pb : b.val / 3 = grp.val
    · rw [if_pos pa, if_pos pb] at heq
      obtain ⟨hia, hEa⟩ := hget a pa
      obtain ⟨hib, hEb⟩ := hget b pb
      rw [hEa, hEb] at heq
      have hinj := List.nodup_iff_injective_get.mp hnd heq
      have hval := congrArg Fin.val hinj
      simp only [] at hval
      apply Fin.ext
      omega
    · rw [if_pos pa, if_neg pb] at heq
      have := hin a pa
      rw [heq] at this
      exact absurd this pb
    · rw [if_neg pa, if_pos pb] at heq
      have := hin b pb
      rw [← heq] at this
      exact absurd this pa
    · rw [if_neg pa, if_neg pb] at heq
      exact heq
  · intro r
    simp only []
    by_cases pr : r.val / 3 = grp.val
    · rw [if_pos pr, hin r pr, pr]
    · rw [if_neg pr]

theorem applyRowShuffle_eq (g : Grid) (grp : Fin 3) (sh : List (Fin 9)) :
    applyRowShuffle g grp.val sh =
      fun r c =>
        g (if r.val / 3 = grp.val then sh.getD (r.val % 3) r else r) c := by
  funext r c
  unfold applyRowShuffle
  rw [apply_ite (fun x => g x c)]

theorem applyColShuffle_eq (g : Grid) (grp : Fin 3) (sh : List (Fin 9)) :
    applyColShuffle g grp.val sh =
      fun r c =>
        g r (if c.val / 3 = grp.val then sh.getD (c.val % 3) c else c) := by
  funext r c
  unfold applyColShuffle
  rw [apply_ite (fun x => g r x)]

theorem shuffleRowsStep_preserves (rng : Rng) (g : Grid) (grp : Fin 3)
    (h : gridComplete g ∧ gridOk g ∧ gridRange g) :
    gridComplete (shuffleRowsStep rng g grp).1 ∧
      gridOk (shuffleRowsStep rng g grp).1 ∧
      gridRange (shuffleRowsStep rng g grp).1 := by
  rcases h with ⟨hc, hok, hr⟩
  unfold shuffleRowsStep
  simp only []
  rw [applyRowShuffle_eq]
  have hlen : (shuffleArray rng (groupIdx grp)).1.length = 3 := by
    rw [shuffleArray_length, groupIdx_length]
  have hnd := shuffleArray_nodup rng (groupIdx grp) (groupIdx_nodup grp)
  have hmem : ∀ x ∈ (shuffleArray rng (groupIdx grp)).1, x ∈ groupIdx grp := by
    intro x hx
    exact (shuffleArray_mem rng (groupIdx grp) x).mp hx
  obtain ⟨hinj, hband⟩ := shuffleMap_props hlen hnd hmem
  refine ⟨?_, gridOk_rowRemap hinj hband hok, ?_⟩
  · intro r c
    exact hc _ c
  · intro r c
    exact hr _ c

theorem shuffleColsStep_preserves (rng : Rng) (g : Grid) (grp : Fin 3)
    (h : gridComplete g ∧ gridOk g ∧ gridRange g) :
    gridComplete (shuffleColsStep rng g grp).1 ∧
      gridOk (shuffleColsStep rng g grp).1 ∧
      gridRange (shuffleColsStep rng g grp).1 := by
  rcases h with ⟨hc, hok, hr⟩
  unfold shuffleColsStep
  simp only []
  rw [applyColShuffle_eq]
  have hlen : (shuffleArray rng (groupIdx grp)).1.length = 3 := by
    rw [shuffleArray_length, groupIdx_length]
  have hnd := shuffleArray_nodup rng (groupIdx grp) (groupIdx_nodup grp)
  have hmem : ∀ x ∈ (shuffleArray rng (groupIdx grp)).1, x ∈ groupIdx grp := by
    intro x hx
    exact (shuffleArray_mem rng (groupIdx grp) x).mp hx
  obtain ⟨hinj, hband⟩ := shuffleMap_props hlen hnd hmem
  refine ⟨?_, gridOk_colRemap hinj hband hok, ?_⟩
  · intro r c
    exact hc r _
  · intro r c
    exact hr r _

theorem shuffleGrid_preserves (rng : Rng) (g : Grid)
    (h : gridComplete g ∧ gridOk g ∧ gridRange g) :
    gridComplete (shuffleGrid rng g).1 ∧ gridOk (shuffleGrid rng g).1 ∧
      gridRange (shuffleGrid rng g).1 := by
  unfold shuffleGrid
  simp only []
  exact shuffleColsStep_preserves _ _ _
    (shuffleColsStep_preserves _ _ _
      (shuffleColsStep_preserves _ _ _
        (shuffleRowsStep_preserves _ _ _
          (shuffleRowsStep_preserves _ _ _
            (shuffleRowsStep_preserves _ _ _ h)))))

theorem canonical_completion_empty : IsCompletion emptyGrid canonicalGrid := by
  refine ⟨?_, by decide, by decide, by decide⟩
  intro r c hz
  exact absurd rfl hz

theorem generateCompleteGrid_good (rng : Rng) :
    gridComplete (generateCompleteGrid rng).1 ∧
      gridOk (generateCompleteGrid rng).1 ∧
      gridRange (generateCompleteGrid rng).1 := by
  unfold generateCompleteGrid
  simp only []
  apply shuffleGrid_preserves
  have hsome := solvePuzzle_isSome rng canonical_completion_empty
  obtain ⟨s, hs⟩ := Option.isSome_iff_exists.mp hsome
  have hpair : solvePuzzle rng emptyGrid = (some s, (solvePuzzle rng emptyGrid).2) := by
    rw [Prod.ext_iff]
    exact ⟨hs, rfl⟩
  have hsound := solvePuzzle_sound hpair
  rcases hsound with ⟨-, hc, hok, hr⟩
  rw [hs]
  simp only [Option.getD_some]
  exact ⟨hc, hok gridOk_empty, hr gridRange_empty⟩

theorem fa_spec : ∀ k : Nat,
    (∀ g sols maxS res flag, numEmpty g ≤ k → gridOk g → gridRange g →
      sols.length ≤ maxS → findAllSolutions g sols maxS = (res, flag) →
      ∃ news, res = sols ++ news ∧ news.Nodup ∧
        (∀ s ∈ news, IsCompletion g s) ∧
        flag = decide (res.length < maxS) ∧ res.length ≤ maxS ∧
        (flag = true → ∀ s, IsCompletion g s → s ∈ news)) ∧
    (∀ g r c h maxS nums sols res flag, numEmpty g ≤ k → gridOk g →
      gridRange g → sols.length < maxS →
      (∀ n ∈ nums, n ≠ 0 ∧ n ≤ 9) → nums.Nodup →
      faTry g r c h sols maxS nums = (res, flag) →
      ∃ news, res = sols ++ news ∧ news.Nodup ∧
        (∀ s ∈ news, IsCompletion g s ∧ s r c ∈ nums) ∧
        flag = decide (res.length < maxS) ∧ res.length ≤ maxS ∧
        (flag = true → ∀ s, IsCompletion g s → s r c ∈ nums → s ∈ news)) := by
  have hbase : ∀ k : Nat,
      (∀ g r c h maxS nums sols res flag, numEmpty g ≤ k → gridOk g →
        gridRange g → sols.length < maxS →
        (∀ n ∈ nums, n ≠ 0 ∧ n ≤ 9) → nums.Nodup →
        faTry g r c h sols maxS nums = (res, flag) →
        ∃ news, res = sols ++ news ∧ news.Nodup ∧
          (∀ s ∈ news, IsCompletion g s ∧ s r c ∈ nums) ∧
          flag = decide (res.length < maxS) ∧ res.length ≤ maxS ∧
          (flag = true → ∀ s, IsCompletion g s → s r c ∈ nums → s ∈ news)) →
      (∀ g sols maxS res flag, numEmpty g ≤ k → gridOk g → gridRange g →
        sols.length ≤ maxS → findAllSolutions g sols maxS = (res, flag) →
        ∃ news, res = sols ++ news ∧ news.Nodup ∧
          (∀ s ∈ news, IsCompletion g s) ∧
          flag = decide (res.length < maxS) ∧ res.length ≤ maxS ∧
          (flag = true → ∀ s, IsCompletion g s → s ∈ news)) := by
    intro k htry g sols maxS res flag hk hok hr hlen hres
    unfold findAllSolutions at hres
    split at hres
    · rename_i hge
      injection hres with h1 h2
      subst h1
      subst h2
      refine ⟨[], by simp, by simp, by simp, ?_, hlen, by simp⟩
      have hnl : ¬(sols.length < maxS) := by omega
      simp [hnl]
    · rename_i hge
      split at hres
      · rename_i hE
        injection hres with h1 h2
        subst h1
        subst h2
        have hc := findEmptyCell_none_iff.mp hE
        refine ⟨[g], rfl, by simp, ?_, ?_, ?_, ?_⟩
        · intro s hs
          rw [List.mem_singleton] at hs
          rw [hs]
          exact ⟨gridExtends_refl g, hc, hok, hr⟩
        · simp
        · simp
          omega
        · intro _ s hcomp
          rw [List.mem_singleton]
          exact complete_extends_eq hc hcomp.1
      · rename_i rc hE
        obtain ⟨news, h1, h2, h3, h4, h5, h6⟩ :=
          htry g rc.1 rc.2 _ maxS nums1to9 sols res flag hk hok hr
            (by omega)
            (fun n hn => ⟨by have := mem_nums1to9.mp hn; omega,
              (mem_nums1to9.mp hn).2⟩)
            (by simp [nums1to9]) hres
        refine ⟨news, h1, h2, fun s hs => (h3 s hs).1, h4, h5, ?_⟩
        intro hfl s hcomp
        exact h6 hfl s hcomp (completion_mem_nums hcomp rc.1 rc.2)
  intro k
  induction k with
  | zero =>
    have htry0 : ∀ g r c (h : g r c = 0) maxS nums sols
        (res : List Grid) (flag : Bool), numEmpty g ≤ 0 → gridOk g →
        gridRange g → sols.length < maxS →
        (∀ n ∈ nums, n ≠ 0 ∧ n ≤ 9) → nums.Nodup →
        faTry g r c h sols maxS nums = (res, flag) →
        ∃ news, res = sols ++ news ∧ news.Nodup ∧
          (∀ s ∈ news, IsCompletion g s ∧ s r c ∈ nums) ∧
          flag = decide (res.length < maxS) ∧ res.length ≤ maxS ∧
          (flag = true → ∀ s, IsCompletion g s → s r c ∈ nums → s ∈ news) := by
      intro g r c h maxS nums sols res flag hk _ _ _ _ _ _
      have := numEmpty_pos h
      omega
    exact ⟨hbase 0 htry0, htry0⟩
  | succ k ih =>
    have htry : ∀ g r c (h : g r c = 0) maxS nums sols
        (res : List Grid) (flag : Bool), numEmpty g ≤ k + 1 → gridOk g →
        gridRange g → sols.length < maxS →
        (∀ n ∈ nums, n ≠ 0 ∧ n ≤ 9) → nums.Nodup →
        faTry g r c h sols maxS nums = (res, flag) →
        ∃ news, res = sols ++ news ∧ news.Nodup ∧
          (∀ s ∈ news, IsCompletion g s ∧ s r c ∈ nums) ∧
          flag = decide (res.length < maxS) ∧ res.length ≤ maxS ∧
          (flag = true → ∀ s, IsCompletion g s → s r c ∈ nums → s ∈ news) := by
      intro g r c h maxS nums
      induction nums with
      | nil =>
        intro sols res flag hk hok hr hlen hn hnd hres
        unfold faTry at hres
        injection hres with h1 h2
        subst h1
        subst h2
        refine ⟨[], by simp, by simp, by simp, by simp [hlen], by omega, ?_⟩
        intro _ s _ hmem
        cases hmem
      | cons num rest ihn =>
        intro sols res flag hk hok hr hlen hn hnd hres
        unfold faTry at hres
        split at hres
        · rename_i hv
          have hnum0 : num ≠ 0 := (hn num (by simp)).1
          have hnum9 : num ≤ 9 := (hn num (by simp)).2
          have hlt := numEmpty_setCell_lt h hnum0
          have hok2 : gridOk (setCell g r c num) := gridOk_setCell hok h hv
          have hr2 : gridRange (setCell g r c num) := gridRange_setCell hr hnum9
          split at hres
          · rename_i sols2 heq2
            injection hres with h1 h2
            subst h1
            subst h2
            obtain ⟨news, ha1, ha2, ha3, ha4, ha5, ha6⟩ :=
              ih.1 (setCell g r c num) sols maxS sols2 false (by omega)
                hok2 hr2 (by omega) heq2
            refine ⟨news, ha1, ha2, ?_, ha4, ha5, ?_⟩
            · intro s hs
              have := (completion_setCell_iff h hnum0).mp (ha3 s hs)
              exact ⟨this.1, by rw [this.2]; simp⟩
            · intro hfa
              cases hfa
          · rename_i sols2 heq2
            obtain ⟨news1, ha1, ha2, ha3, ha4, ha5, ha6⟩ :=
              ih.1 (setCell g r c num) sols maxS sols2 true (by omega)
                hok2 hr2 (by omega) heq2
            have hlen2 : sols2.length < maxS := of_decide_eq_true ha4.symm
            obtain ⟨news2, hb1, hb2, hb3, hb4, hb5, hb6⟩ :=
              ihn sols2 res flag hk hok hr hlen2
                (fun n hmem => hn n (by simp [hmem]))
                (List.Nodup.of_cons hnd) hres
            refine ⟨news1 ++ news2, ?_, ?_, ?_, hb4, hb5, ?_⟩
            · rw [hb1, ha1, List.append_assoc]
            · apply List.Nodup.append ha2 hb2
              intro s hs1 hs2
              have e1 := ((completion_setCell_iff h hnum0).mp (ha3 s hs1)).2
              have e2 := (hb3 s hs2).2
              rw [e1] at e2
              exact (List.nodup_cons.mp hnd).1 e2
            · intro s hs
              rcases List.mem_append.mp hs with h1 | h1
              · have := (completion_setCell_iff h hnum0).mp (ha3 s h1)
                exact ⟨this.1, by rw [this.2]; simp⟩
              · have := hb3 s h1
                exact ⟨this.1, by simp [this.2]⟩
            · intro hfl s hcomp hmem
              rcases List.mem_cons.mp hmem with h1 | h1
              · have hcomp2 : IsCompletion (setCell g r c num) s :=
                  (completion_setCell_iff h hnum0).mpr ⟨hcomp, h1⟩
                exact List.mem_append.mpr (Or.inl (ha6 rfl s hcomp2))
              · exact List.mem_append.mpr (Or.inr (hb6 hfl s hcomp h1))
        · rename_i hv
          obtain ⟨news, hb1, hb2, hb3, hb4, hb5, hb6⟩ :=
            ihn sols res flag hk hok hr hlen
              (fun n hmem => hn n (by simp [hmem]))
              (List.Nodup.of_cons hnd) hres
          refine ⟨news, hb1, hb2, ?_, hb4, hb5, ?_⟩
          · intro s hs
            exact ⟨(hb3 s hs).1, by simp [(hb3 s hs).2]⟩
          · intro hfl s hcomp hmem
            rcases List.mem_cons.mp hmem with h1 | h1
            · exact absurd h1
                (completion_prune h (Bool.eq_false_iff.mpr hv) hcomp)
            · exact hb6 hfl s hcomp h1
    exact ⟨hbase (k + 1) htry, htry⟩

theorem findAllSolutions_spec {g : Grid} (hok : gridOk g) (hr : gridRange g) :
    ∃ news, (findAllSolutions g [] 2).1 = news ∧ news.Nodup ∧
      (∀ s ∈ news, IsCompletion g s) ∧
      (findAllSolutions g [] 2).2 =
        decide ((findAllSolutions g [] 2).1.length < 2) ∧
      (findAllSolutions g [] 2).1.length ≤ 2 ∧
      ((findAllSolutions g [] 2).2 = true →
        ∀ s, IsCompletion g s → s ∈ news) := by
  obtain ⟨news, h1, h2, h3, h4, h5, h6⟩ :=
    (fa_spec (numEmpty g)).1 g [] 2 (findAllSolutions g [] 2).1
      (findAllSolutions g [] 2).2 (Nat.le_refl _) hok hr (by simp) rfl
  exact ⟨news, by simpa using h1, h2, h3, h4, h5, h6⟩

theorem hasUnique_iff {g : Grid} (hok : gridOk g) (hr : gridRange g) :
    hasUniqueSolution g = true ↔ ∃! s, IsCompletion g s := by
  obtain ⟨news, h1, h2, h3, h4, h5, h6⟩ := findAllSolutions_spec hok hr
  unfold hasUniqueSolution
  rw [h1] at h4 h5 ⊢
  simp only [beq_iff_eq]
  constructor
  · intro hone
    have hfl : (findAllSolutions g [] 2).2 = true := by
      rw [h4, hone]
      simp
    obtain ⟨s0, hs0⟩ := List.length_eq_one.mp hone
    refine ⟨s0, h3 s0 (by simp [hs0]), ?_⟩
    intro t ht
    have := h6 hfl t ht
    rw [hs0] at this
    simpa using this
  · rintro ⟨s0, hs0, huniq⟩
    by_cases hfl : (findAllSolutions g [] 2).2 = true
    · have hmem := h6 hfl s0 hs0
      have hlt : news.length < 2 := of_decide_eq_true (hfl ▸ h4 ▸ rfl)
      have hpos : 0 < news.length := List.length_pos_of_mem hmem
      omega
    · have hfl2 : (findAllSolutions g [] 2).2 = false :=
        Bool.eq_false_iff.mpr hfl
      rw [hfl2] at h4
      have hge : ¬(news.length < 2) := of_decide_eq_false h4.symm
      have hlen2 : news.length = 2 := by omega
      obtain ⟨a, b, hab⟩ := List.length_eq_two.mp hlen2
      have hane : a ≠ b := by
        have hnd2 := h2
        rw [hab] at hnd2
        simpa using (List.nodup_cons.mp hnd2).1
      have ha := h3 a (by simp [hab])
      have hb := h3 b (by simp [hab])
      have e1 := huniq a ha
      have e2 := huniq b hb
      rw [← e2] at e1
      exact absurd e1 hane

theorem hasUnique_of_complete {g : Grid} (hc : gridComplete g) :
    hasUniqueSolution g = true := by
  unfold hasUniqueSolution
  unfold findAllSolutions
  rw [if_neg (by simp)]
  split
  · simp
  · rename_i rc hE
    rw [findEmptyCell_none_iff.mpr hc] at hE
    cases hE

theorem gridExtends_clearCell {g sol : Grid} (r c : Fin 9)
    (h : gridExtends g sol) : gridExtends (setCell g r c 0) sol := by
  intro r' c' hz
  by_cases hc : r' = r ∧ c' = c
  · rcases hc with ⟨h1, h2⟩
    subst h1; subst h2
    rw [setCell_same] at hz
    exact absurd rfl hz
  · rw [setCell_other _ _ _ _ hc] at hz ⊢
    exact h r' c' hz

theorem createPuzzleLoop_inv : ∀ fuel removed toRemove rng (g sol : Grid),
    gridExtends g sol → hasUniqueSolution g = true →
    gridExtends (createPuzzleLoop fuel removed toRemove rng g).1 sol ∧
      hasUniqueSolution (createPuzzleLoop fuel removed toRemove rng g).1 =
        true := by
  intro fuel
  induction fuel with
  | zero =>
    intro removed toRemove rng g sol h1 h2
    exact ⟨h1, h2⟩
  | succ fuel ih =>
    intro removed toRemove rng g sol h1 h2
    unfold createPuzzleLoop
    dsimp only
    split
    · split
      · split
        · rename_i huniq
          exact ih _ _ _ _ sol (gridExtends_clearCell _ _ h1) huniq
        · exact ih _ _ _ _ sol h1 h2
      · exact ih _ _ _ _ sol h1 h2
    · exact ⟨h1, h2⟩

theorem clueCount_setCell_zero {g : Grid} {r c : Fin 9} (h : g r c ≠ 0) :
    clueCount (setCell g r c 0) = clueCount g - 1 := by
  unfold clueCount
  have hset : (Finset.univ.filter
      fun p : Fin 9 × Fin 9 => setCell g r c 0 p.1 p.2 ≠ 0) =
      (Finset.univ.filter fun p : Fin 9 × Fin 9 => g p.1 p.2 ≠ 0).erase
        (r, c) := by
    apply Finset.ext
    intro p
    simp only [Finset.mem_filter, Finset.mem_univ, true_and,
      Finset.mem_erase, ne_eq]
    constructor
    · intro hp
      by_cases hc : p.1 = r ∧ p.2 = c
      · exfalso
        apply hp
        rw [show p = (r, c) from Prod.ext hc.1 hc.2]
        simp [setCell]
      · refine ⟨?_, ?_⟩
        · intro hpe
          apply hc
          rw [hpe]
          exact ⟨rfl, rfl⟩
        · rw [setCell_other _ _ _ _ hc] at hp
          exact hp
    · rintro ⟨hne, hp⟩
      have hc : ¬(p.1 = r ∧ p.2 = c) := by
        rintro ⟨h1, h2⟩
        exact hne (Prod.ext h1 h2)
      rw [setCell_other _ _ _ _ hc]
      exact hp
  rw [hset]
  apply Finset.card_erase_of_mem
  simp [h]

theorem clueCount_complete {g : Grid} (hc : gridComplete g) :
    clueCount g = 81 := by
  unfold clueCount
  have huniv : (Finset.univ.filter fun p : Fin 9 × Fin 9 => g p.1 p.2 ≠ 0) =
      Finset.univ := by
    apply Finset.ext
    intro p
    simp [hc p.1 p.2]
  rw [huniv, Finset.card_univ]
  decide

theorem createPuzzleLoop_clues : ∀ fuel removed toRemove rng (g : Grid),
    clueCount g = 81 - removed → removed ≤ toRemove → toRemove ≤ 81 →
    81 - toRemove ≤ clueCount (createPuzzleLoop fuel removed toRemove rng g).1 ∧
      (0 < (createPuzzleLoop fuel removed toRemove rng g).2.2 →
        clueCount (createPuzzleLoop fuel removed toRemove rng g).1 =
          81 - toRemove) := by
  intro fuel
  induction fuel with
  | zero =>
    intro removed toRemove rng g hc hle hmax
    unfold createPuzzleLoop
    constructor
    · rw [hc]; omega
    · intro hpos
      simp at hpos
  | succ fuel ih =>
    intro removed toRemove rng g hc hle hmax
    unfold createPuzzleLoop
    dsimp only
    split
    · rename_i hlt
      split
      · rename_i hnz
        split
        · rename_i huniq
          apply ih
          · rw [clueCount_setCell_zero hnz, hc]
            omega
          · omega
          · exact hmax
        · exact ih _ _ _ _ hc hle hmax
      · exact ih _ _ _ _ hc hle hmax
    · rename_i hge
      have : removed = toRemove := by omega
      constructor
      · rw [hc, this]
      · intro _
        rw [hc, this]

theorem validDiffs_settings {d : String} (hd : d ∈ validDiffs) :
    ∃ clues, difficultySettings d = some clues ∧ 17 ≤ clues ∧ clues ≤ 45 := by
  simp only [validDiffs, List.mem_cons, List.not_mem_nil, or_false] at hd
  rcases hd with h | h | h | h <;> subst h
  · exact ⟨45, by decide, by omega, by omega⟩
  · exact ⟨35, by decide, by omega, by omega⟩
  · exact ⟨25, by decide, by omega, by omega⟩
  · exact ⟨17, by decide, by omega, by omega⟩

theorem generatePuzzle_ok (e : Engine) (rng : Rng) {d : String} {clues : Nat}
    (hd : difficultySettings d = some clues) :
    ∃ p, (generatePuzzle e rng d).result = Except.ok p ∧
      p.grid = (createPuzzleLoop 1000 0 (81 - clues)
        (generateCompleteGrid rng).2 (generateCompleteGrid rng).1).1 ∧
      p.solution = (generateCompleteGrid rng).1 ∧
      gridExtends p.grid p.solution ∧ hasUniqueSolution p.grid = true ∧
      gridComplete p.solution ∧ gridOk p.solution ∧ gridRange p.solution ∧
      gridOk p.grid ∧ gridRange p.grid := by
  obtain ⟨hcomp, hok, hrange⟩ := generateCompleteGrid_good rng
  unfold generatePuzzle
  simp only []
  rw [hd]
  simp only []
  refine ⟨_, rfl, rfl, rfl, ?_⟩
  have hinv := createPuzzleLoop_inv 1000 0 (81 - clues)
    (generateCompleteGrid rng).2 (generateCompleteGrid rng).1
    (generateCompleteGrid rng).1 (gridExtends_refl _)
    (hasUnique_of_complete hcomp)
  refine ⟨hinv.1, hinv.2, hcomp, hok, hrange, ?_, ?_⟩
  · exact gridOk_of_extends hinv.1 hok
  · exact gridRange_of_extends hinv.1 hrange

theorem validate_foldl_spec : ∀ (l : List (Fin 9 × Fin 9)) (g : Grid)
    (errs : List VErr),
    l.foldl validateCell (g, errs) =
      (g, errs ++ (l.filter fun p => (g p.1 p.2 != 0) &&
        !(isValidMove (setCell g p.1 p.2 0) p.1 p.2 (g p.1 p.2))).map
        fun p => ⟨p.1, p.2, g p.1 p.2⟩) := by
  intro l
  induction l with
  | nil => simp
  | cons p l ih =>
    intro g errs
    rw [List.foldl_cons, List.filter_cons]
    by_cases hz : g p.1 p.2 ≠ 0
    · by_cases hv : isValidMove (setCell g p.1 p.2 0) p.1 p.2 (g p.1 p.2) = true
      · have hvc : validateCell (g, errs) p = (g, errs) := by
          unfold validateCell
          rw [if_pos hz]
          dsimp only
          rw [if_pos hv, setCell_restore]
        rw [hvc, ih]
        have hpred : ((g p.1 p.2 != 0) &&
            !(isValidMove (setCell g p.1 p.2 0) p.1 p.2 (g p.1 p.2))) = false := by
          simp [hz, hv]
        rw [hpred]
        simp
      · have hvc : validateCell (g, errs) p =
            (g, errs ++ [⟨p.1, p.2, g p.1 p.2⟩]) := by
          unfold validateCell
          rw [if_pos hz]
          dsimp only
          rw [if_neg hv, setCell_restore]
        rw [hvc, ih]
        have hpred : ((g p.1 p.2 != 0) &&
            !(isValidMove (setCell g p.1 p.2 0) p.1 p.2 (g p.1 p.2))) = true := by
          simp [hz, hv]
        rw [hpred]
        simp
    · have hvc : validateCell (g, errs) p = (g, errs) := by
        unfold validateCell
        rw [if_neg hz]
      rw [hvc, ih]
      have hpred : ((g p.1 p.2 != 0) &&
          !(isValidMove (setCell g p.1 p.2 0) p.1 p.2 (g p.1 p.2))) = false := by
        simp at hz
        simp [hz]
      rw [hpred]
      simp

theorem validatePuzzleSt_frame (g : Grid) : (validatePuzzleSt g).2 = g := by
  unfold validatePuzzleSt
  rw [validate_foldl_spec]

theorem validatePuzzleSt_again (g : Grid) :
    validatePuzzleSt ((validatePuzzleSt g).2) = validatePuzzleSt g := by
  rw [validatePuzzleSt_frame]

theorem cleared_move_valid {g : Grid} {r c : Fin 9} (hok : gridOk g)
    (hz : g r c ≠ 0) :
    isValidMove (setCell g r c 0) r c (g r c) = true := by
  rw [isValidMove_iff]
  intro r2 c2 hu heq
  by_cases hc : r2 = r ∧ c2 = c
  · rcases hc with ⟨h1, h2⟩
    subst h1; subst h2
    rw [setCell_same] at heq
    exact hz heq.symm
  · rw [setCell_other _ _ _ _ hc] at heq
    have hne : (r, c) ≠ (r2, c2) := by
      intro hp
      injection hp with h1 h2
      exact hc ⟨h1.symm, h2.symm⟩
    exact hok r c r2 c2 hne hu hz heq.symm

theorem validatePuzzle_valid_of_ok {g : Grid} (hok : gridOk g) :
    validatePuzzle g = { isValid := true, errors := [] } := by
  unfold validatePuzzle validatePuzzleSt
  rw [validate_foldl_spec]
  have hfil : (cellsList.filter fun p => (g p.1 p.2 != 0) &&
      !(isValidMove (setCell g p.1 p.2 0) p.1 p.2 (g p.1 p.2))) = [] := by
    rw [List.filter_eq_nil_iff]
    intro p _
    by_cases hz : g p.1 p.2 ≠ 0
    · simp [cleared_move_valid hok hz]
    · simp at hz
      simp [hz]
  rw [hfil]
  rfl

theorem isComplete_true {g : Grid} (hc : gridComplete g) (hok : gridOk g) :
    isComplete g = true := by
  unfold isComplete
  rw [validatePuzzle_valid_of_ok hok]
  simp only [Bool.and_eq_true, List.all_eq_true]
  exact ⟨fun p _ => by simpa using hc p.1 p.2, trivial⟩

theorem find_congr {α : Type} {p q : α → Bool} :
    ∀ l : List α, (∀ a ∈ l, p a = q a) → l.find? p = l.find? q := by
  intro l
  induction l with
  | nil => intro _; rfl
  | cons a l ih =>
    intro h
    rw [List.find?_cons, List.find?_cons, h a (by simp)]
    cases hqa : q a
    · simp only []
      exact ih fun b hb => h b (by simp [hb])
    · rfl

theorem countPoss_le9 (g : Grid) (p : Fin 9 × Fin 9) : countPoss g p ≤ 9 := by
  unfold countPoss getPossibleValues
  calc (nums1to9.filter fun num => isValidMove g p.1 p.2 num).length
      ≤ nums1to9.length := List.length_filter_le _ _
    _ = 9 := rfl

theorem exists_min (g : Grid) : ∀ l : List (Fin 9 × Fin 9), l ≠ [] →
    ∃ m ∈ l, ∀ q ∈ l, countPoss g m ≤ countPoss g q := by
  intro l
  induction l with
  | nil => intro h; exact absurd rfl h
  | cons a rest ih =>
    intro _
    by_cases hr : rest = []
    · subst hr
      refine ⟨a, by simp, ?_⟩
      intro q hq
      rw [List.mem_singleton] at hq
      rw [hq]
    · obtain ⟨m, hm, hall⟩ := ih hr
      by_cases hc : countPoss g a ≤ countPoss g m
      · refine ⟨a, by simp, ?_⟩
        intro q hq
        rcases List.mem_cons.mp hq with h1 | h1
        · rw [h1]
        · exact Nat.le_trans hc (hall q h1)
      · refine ⟨m, by simp [hm], ?_⟩
        intro q hq
        rcases List.mem_cons.mp hq with h1 | h1
        · rw [h1]; omega
        · exact hall q h1

theorem hintLoop_zero (g : Grid) : ∀ cells best,
    hintLoop g cells best 0 = best := by
  intro cells
  induction cells with
  | nil => intro best; rfl
  | cons p rest ih =>
    intro best
    unfold hintLoop
    dsimp only
    rw [if_neg (by omega)]
    exact ih best

theorem hintLoop_le1 (g : Grid) : ∀ cells best minP p0, 2 ≤ minP →
    cells.find? (fun p => decide (countPoss g p ≤ 1)) = some p0 →
    hintLoop g cells best minP = some p0 := by
  intro cells
  induction cells with
  | nil =>
    intro best minP p0 _ hf
    simp at hf
  | cons q rest ih =>
    intro best minP p0 hmin hf
    rw [List.find?_cons] at hf
    by_cases hq : countPoss g q ≤ 1
    · simp only [decide_eq_true hq] at hf
      injection hf with hf
      subst hf
      unfold hintLoop
      dsimp only
      rw [show (getPossibleValues g q.1 q.2).length = countPoss g q from rfl]
      rw [if_pos (show countPoss g q < minP by omega)]
      by_cases h1 : countPoss g q = 1
      · rw [if_pos (by simpa using h1)]
      · rw [if_neg (by simpa using h1)]
        have h0 : countPoss g q = 0 := by omega
        rw [h0]
        exact hintLoop_zero g rest (some q)
    · simp only [decide_eq_false hq] at hf
      unfold hintLoop
      dsimp only
      rw [show (getPossibleValues g q.1 q.2).length = countPoss g q from rfl]
      by_cases hlt : countPoss g q < minP
      · rw [if_pos hlt, if_neg (by simp; omega)]
        exact ih (some q) (countPoss g q) p0 (by omega) hf
      · rw [if_neg hlt]
        exact ih best minP p0 hmin hf

theorem hintLoop_argmin (g : Grid) : ∀ cells best minP,
    (∀ p ∈ cells, countPoss g p ≠ 1) →
    hintLoop g cells best minP =
      (match cells.find? (fun p => decide (countPoss g p < minP ∧
          ∀ q ∈ cells, countPoss g p ≤ countPoss g q)) with
        | some p => some p
        | none => best) := by
  intro cells
  induction cells with
  | nil => intro best minP _; rfl
  | cons a rest ih =>
    intro best minP hne
    have hna : countPoss g a ≠ 1 := hne a (by simp)
    have hrest : ∀ p ∈ rest, countPoss g p ≠ 1 :=
      fun p hp => hne p (by simp [hp])
    unfold hintLoop
    dsimp only
    rw [show (getPossibleValues g a.1 a.2).length = countPoss g a from rfl]
    rw [List.find?_cons]
    by_cases hlt : countPoss g a < minP
    · rw [if_pos hlt, if_neg (by simp [hna])]
      rw [ih (some a) (countPoss g a) hrest]
      by_cases hall : ∀ q ∈ rest, countPoss g a ≤ countPoss g q
      · have hpa : (decide (countPoss g a < minP ∧
            ∀ q ∈ a :: rest, countPoss g a ≤ countPoss g q)) = true := by
          rw [decide_eq_true_eq]
          refine ⟨hlt, ?_⟩
          intro q hq
          rcases List.mem_cons.mp hq with h1 | h1
          · rw [h1]
          · exact hall q h1
        rw [hpa]
        have hnone : rest.find? (fun p => decide (countPoss g p <
            countPoss g a ∧ ∀ q ∈ rest, countPoss g p ≤ countPoss g q)) =
            none := by
          rw [List.find?_eq_none]
          intro x hx
          simp only [decide_eq_true_eq, not_and]
          intro hxlt
          exact absurd hxlt (by have := hall x hx; omega)
        rw [hnone]
      · have hex : rest ≠ [] := by
          intro h0
          apply hall
          rw [h0]
          intro q hq
          simp at hq
        obtain ⟨w, hw, hwlt⟩ : ∃ w ∈ rest, countPoss g w < countPoss g a := by
          by_contra hcon
          push_neg at hcon
          exact hall fun q hq => (hcon q hq)
        obtain ⟨m, hmem, hmall⟩ := exists_min g rest hex
        have hpa : (decide (countPoss g a < minP ∧
            ∀ q ∈ a :: rest, countPoss g a ≤ countPoss g q)) = false := by
          rw [decide_eq_false_iff_not]
          rintro ⟨-, hq⟩
          have := hq w (by simp [hw])
          omega
        rw [hpa]
        have hcongr : rest.find? (fun p => decide (countPoss g p <
            countPoss g a ∧ ∀ q ∈ rest, countPoss g p ≤ countPoss g q)) =
            rest.find? (fun p => decide (countPoss g p < minP ∧
              ∀ q ∈ a :: rest, countPoss g p ≤ countPoss g q)) := by
          apply find_congr
          intro x hx
          apply decide_eq_decide.mpr
          constructor
          · rintro ⟨h1, h2⟩
            refine ⟨by omega, ?_⟩
            intro q hq
            rcases List.mem_cons.mp hq with h3 | h3
            · rw [h3]; omega
            · exact h2 q h3
          · rintro ⟨h1, h2⟩
            refine ⟨?_, fun q hq => h2 q (by simp [hq])⟩
            have := h2 w (by simp [hw])
            omega
        have hfind : (rest.find? (fun p => decide (countPoss g p <
            countPoss g a ∧ ∀ q ∈ rest, countPoss g p ≤ countPoss g q))).isSome := by
          rw [List.find?_isSome]
          refine ⟨m, hmem, ?_⟩
          rw [decide_eq_true_eq]
          refine ⟨?_, hmall⟩
          have := hmall w hw
          omega
        obtain ⟨p2, hp2⟩ := Option.isSome_iff_exists.mp hfind
        rw [← hcongr, hp2]
    · rw [if_neg hlt]
      rw [ih best minP hrest]
      have hpa : (decide (countPoss g a < minP ∧
          ∀ q ∈ a :: rest, countPoss g a ≤ countPoss g q)) = false := by
        rw [decide_eq_false_iff_not]
        rintro ⟨h1, -⟩
        exact hlt h1
      rw [hpa]
      have hcongr : rest.find? (fun p => decide (countPoss g p < minP ∧
          ∀ q ∈ rest, countPoss g p ≤ countPoss g q)) =
          rest.find? (fun p => decide (countPoss g p < minP ∧
            ∀ q ∈ a :: rest, countPoss g p ≤ countPoss g q)) := by
        apply find_congr
        intro x hx
        apply decide_eq_decide.mpr
        constructor
        · rintro ⟨h1, h2⟩
          refine ⟨h1, ?_⟩
          intro q hq
          rcases List.mem_cons.mp hq with h3 | h3
          · rw [h3]; omega
          · exact h2 q h3
        · rintro ⟨h1, h2⟩
          exact ⟨h1, fun q hq => h2 q (by simp [hq])⟩
      rw [hcongr]

theorem getHint_eq_choice (sol g : Grid) :
    getHint sol g = (hintChoiceCell g).map
      fun p => { row := p.1, col := p.2, value := sol p.1 p.2 } := by
  unfold getHint hintChoiceCell
  dsimp only
  by_cases hemp : emptyCellsL g = []
  · rw [hemp]
    simp
  · rw [if_neg (by simpa [List.isEmpty_iff] using hemp)]
    cases hf : (emptyCellsL g).find? (fun p => decide (countPoss g p ≤ 1)) with
    | some p0 =>
      rw [hintLoop_le1 g (emptyCellsL g) none 10 p0 (by omega) hf]
      rfl
    | none =>
      have hge2 : ∀ p ∈ emptyCellsL g, countPoss g p ≠ 1 := by
        rw [List.find?_eq_none] at hf
        intro p hp
        have := hf p hp
        simp at this
        omega
      rw [hintLoop_argmin g (emptyCellsL g) none 10 hge2]
      have hcongr : (emptyCellsL g).find? (fun p => decide (countPoss g p < 10 ∧
          ∀ q ∈ emptyCellsL g, countPoss g p ≤ countPoss g q)) =
          (emptyCellsL g).find? (fun p => decide
            (∀ q ∈ emptyCellsL g, countPoss g p ≤ countPoss g q)) := by
        apply find_congr
        intro x _
        apply decide_eq_decide.mpr
        constructor
        · exact And.right
        · intro hal
          exact ⟨by have := countPoss_le9 g x; omega, hal⟩
      rw [hcongr]
      cases hf2 : (emptyCellsL g).find? (fun p => decide
          (∀ q ∈ emptyCellsL g, countPoss g p ≤ countPoss g q)) with
      | some p1 => rfl
      | none => rfl

theorem hintChoiceCell_isSome {g : Grid} (hne : emptyCellsL g ≠ []) :
    ∃ p, hintChoiceCell g = some p := by
  unfold hintChoiceCell
  cases hf : (emptyCellsL g).find? (fun p => decide (countPoss g p ≤ 1)) with
  | some p0 => exact ⟨p0, rfl⟩
  | none =>
    obtain ⟨m, hmem, hmall⟩ := exists_min g (emptyCellsL g) hne
    have hfind : ((emptyCellsL g).find? (fun p => decide
        (∀ q ∈ emptyCellsL g, countPoss g p ≤ countPoss g q))).isSome := by
      rw [List.find?_isSome]
      exact ⟨m, hmem, by rw [decide_eq_true_eq]; exact hmall⟩
    obtain ⟨p1, hp1⟩ := Option.isSome_iff_exists.mp hfind
    rw [hp1]
    exact ⟨p1, rfl⟩

theorem hintChoiceCell_mem {g : Grid} {p : Fin 9 × Fin 9}
    (h : hintChoiceCell g = some p) : g p.1 p.2 = 0 := by
  unfold hintChoiceCell at h
  have hmem : p ∈ emptyCellsL g := by
    cases hf : (emptyCellsL g).find? (fun q => decide (countPoss g q ≤ 1)) with
    | some p0 =>
      rw [hf] at h
      injection h with h
      subst h
      exact List.mem_of_find?_eq_some hf
    | none =>
      rw [hf] at h
      exact List.mem_of_find?_eq_some h
  unfold emptyCellsL at hmem
  have := List.of_mem_filter hmem
  simpa using this

theorem getHint_none_iff (sol g : Grid) :
    getHint sol g = none ↔ emptyCellsL g = [] := by
  rw [getHint_eq_choice]
  constructor
  · intro h
    by_contra hne
    obtain ⟨p, hp⟩ := hintChoiceCell_isSome hne
    rw [hp] at h
    cases h
  · intro h
    have : hintChoiceCell g = none := by
      unfold hintChoiceCell
      rw [h]
      rfl
    rw [this]
    rfl

theorem solveCurrentPuzzle_spec (e : Engine) (hok : gridOk e.grid)
    (hr : gridRange e.grid) :
    ((¬∃ s, IsCompletion e.grid s) → (solveCurrentPuzzle e).success = false ∧
      (solveCurrentPuzzle e).solution = none) ∧
    (∀ s, (solveCurrentPuzzle e).solution = some s →
      IsCompletion e.grid s ∧ (solveCurrentPuzzle e).success = true) := by
  have hsol : ∀ s, (solveCurrentPuzzle e).solution = some s →
      IsCompletion e.grid s ∧ (solveCurrentPuzzle e).success = true := by
    intro s hs
    unfold solveCurrentPuzzle at hs ⊢
    dsimp only at hs ⊢
    have hpair : solvePuzzleWithSteps e.grid [] =
        (some s, (solvePuzzleWithSteps e.grid []).2) := by
      rw [Prod.ext_iff]
      exact ⟨hs, rfl⟩
    obtain ⟨hext, hc, hokp, hrp⟩ := solvePuzzleWithSteps_sound hpair
    refine ⟨⟨hext, hc, hokp hok, hrp hr⟩, ?_⟩
    rw [hs]
    rfl
  refine ⟨?_, hsol⟩
  intro hno
  cases hs : (solveCurrentPuzzle e).solution with
  | none =>
    refine ⟨?_, rfl⟩
    unfold solveCurrentPuzzle at hs ⊢
    dsimp only at hs ⊢
    rw [hs]
    rfl
  | some s =>
    exact absurd ⟨s, (hsol s hs).1⟩ hno

theorem gBad_no_completion : ¬∃ s, IsCompletion gBad s := by
  rintro ⟨s, hext, hcmp, hok, hrng⟩
  rw [complete_extends_eq (by decide) hext] at hok
  exact (by decide : ¬gridOk gBad) hok

theorem generatePuzzle_error (e : Engine) (rng : Rng) {d : String}
    (hd : difficultySettings d = none) :
    (generatePuzzle e rng d).result = Except.error () ∧
      (generatePuzzle e rng d).engine.grid = (generateCompleteGrid rng).1 ∧
      (generatePuzzle e rng d).engine.solution =
        (generateCompleteGrid rng).1 ∧
      (generatePuzzle e rng d).engine.initialGrid = e.initialGrid ∧
      (generatePuzzle e rng d).engine.difficulty = d := by
  unfold generatePuzzle
  dsimp only
  rw [hd]
  exact ⟨rfl, rfl, rfl, rfl, rfl⟩

theorem difficultySettings_range {d : String} {clues : Nat}
    (hd : difficultySettings d = some clues) : 17 ≤ clues ∧ clues ≤ 45 := by
  unfold difficultySettings at hd
  split_ifs at hd <;> first
    | (injection hd with h; omega)
    | cases hd

/-- C1: for every recognized difficulty (and any random stream), the
puzzle returned by `generatePuzzle` has every nonzero cell equal to the
corresponding cell of the returned solution, `hasUniqueSolution` holds of
the grid immediately after generation, and the returned solution is the
unique constraint-satisfying completion of the grid (never 0 or 2 or
more completions). -/
theorem claim_C1 (e : Engine) (rng : Rng) (d : String)
    (hd : d ∈ validDiffs) :
    ∃ p, (generatePuzzle e rng d).result = Except.ok p ∧
      (∀ r c : Fin 9, p.grid r c ≠ 0 → p.grid r c = p.solution r c) ∧
      hasUniqueSolution p.grid = true ∧
      IsCompletion p.grid p.solution ∧
      (∀ s, IsCompletion p.grid s → s = p.solution) := by
  obtain ⟨clues, hset, -, -⟩ := validDiffs_settings hd
  obtain ⟨p, hres, hgrid, hsol, hext, huniq, hcomp, hoks, hranges, hokg, hrg⟩ :=
    generatePuzzle_ok e rng hset
  refine ⟨p, hres, ?_, huniq, ⟨hext, hcomp, hoks, hranges⟩, ?_⟩
  · intro r c hz
    exact (hext r c hz).symm
  · intro s hs
    obtain ⟨s0, hs0, huniq0⟩ := (hasUnique_iff hokg hrg).mp huniq
    rw [huniq0 s hs, huniq0 p.solution ⟨hext, hcomp, hoks, hranges⟩]

/-- Witness for C1 at difficulty easy, a fresh engine and the empty
random stream. -/
theorem claim_C1_witness :
    "easy" ∈ validDiffs ∧
    ∃ p, (generatePuzzle engineNew [] "easy").result = Except.ok p ∧
      (∀ r c : Fin 9, p.grid r c ≠ 0 → p.grid r c = p.solution r c) ∧
      hasUniqueSolution p.grid = true ∧
      IsCompletion p.grid p.solution ∧
      (∀ s, IsCompletion p.grid s → s = p.solution) :=
  ⟨by decide, claim_C1 engineNew [] "easy" (by decide)⟩

/-- C2 counterexample: the complete but constraint-violating grid `gBad`
(canonical grid with cell (0,0) set to 3) has values in [0,9] and no
constraint-satisfying completion at all, yet `hasUniqueSolution` returns
true on it, so the claimed equivalence fails for it. -/
theorem claim_C2_counterexample :
    gridRange gBad ∧ hasUniqueSolution gBad = true ∧
      ¬∃ s, IsCompletion gBad s :=
  ⟨by decide, hasUnique_of_complete (by decide), gBad_no_completion⟩

/-- C2 (amended): for every 9x9 grid with values in [0,9] whose already
placed values satisfy the row/column/box constraints,
`hasUniqueSolution` returns true iff the grid has exactly one
constraint-satisfying completion; the enumeration records at most 2
solutions (the early cutoff). -/
theorem claim_C2 (g : Grid) (hok : gridOk g) (hr : gridRange g) :
    (hasUniqueSolution g = true ↔ ∃! s, IsCompletion g s) ∧
      (findAllSolutions g [] 2).1.length ≤ 2 := by
  obtain ⟨news, h1, h2, h3, h4, h5, h6⟩ := findAllSolutions_spec hok hr
  exact ⟨hasUnique_iff hok hr, h5⟩

/-- Witness for C2 at the canonical solved grid. -/
theorem claim_C2_witness :
    (gridOk canonicalGrid ∧ gridRange canonicalGrid) ∧
    ((hasUniqueSolution canonicalGrid = true ↔
        ∃! s, IsCompletion canonicalGrid s) ∧
      (findAllSolutions canonicalGrid [] 2).1.length ≤ 2) :=
  ⟨⟨by decide, by decide⟩, claim_C2 canonicalGrid (by decide) (by decide)⟩

/-- C3: every complete grid satisfying the constraints validates with no
errors and is complete, and the same holds of the solution returned by
`generatePuzzle` for every recognized difficulty (the canonical solved
grid is the witness instance). -/
theorem claim_C3 (g : Grid) (hc : gridComplete g) (hok : gridOk g)
    (e : Engine) (rng : Rng) (d : String) (hd : d ∈ validDiffs) :
    validatePuzzle g = { isValid := true, errors := [] } ∧
      isComplete g = true ∧
      ∃ p, (generatePuzzle e rng d).result = Except.ok p ∧
        validatePuzzle p.solution = { isValid := true, errors := [] } ∧
        isComplete p.solution = true := by
  refine ⟨validatePuzzle_valid_of_ok hok, isComplete_true hc hok, ?_⟩
  obtain ⟨clues, hset, -, -⟩ := validDiffs_settings hd
  obtain ⟨p, hres, hgrid, hsol, hext, huniq, hcomp, hoks, hranges, hokg, hrg⟩ :=
    generatePuzzle_ok e rng hset
  exact ⟨p, hres, validatePuzzle_valid_of_ok hoks, isComplete_true hcomp hoks⟩

/-- Witness for C3 at the canonical solved grid of the specification. -/
theorem claim_C3_witness :
    (gridComplete canonicalGrid ∧ gridOk canonicalGrid ∧
      "easy" ∈ validDiffs) ∧
    (validatePuzzle canonicalGrid = { isValid := true, errors := [] } ∧
      isComplete canonicalGrid = true ∧
      ∃ p, (generatePuzzle engineNew [] "easy").result = Except.ok p ∧
        validatePuzzle p.solution = { isValid := true, errors := [] } ∧
        isComplete p.solution = true) :=
  ⟨⟨by decide, by decide, by decide⟩,
    claim_C3 canonicalGrid (by decide) (by decide) engineNew [] "easy"
      (by decide)⟩

/-- C4 counterexample: calling `generatePuzzle` on a fresh engine with
the unrecognized difficulty "bogus" does throw, but only after the grid
work has begun: the engine grid has already been overwritten (it differs
from the all-empty grid it held before the call), so the call is not
rejected before any grid work begins. -/
theorem claim_C4_counterexample :
    (generatePuzzle engineNew [] "bogus").result = Except.error () ∧
      (generatePuzzle engineNew [] "bogus").engine.grid ≠ engineNew.grid := by
  have h := generatePuzzle_error engineNew []
    (show difficultySettings "bogus" = none by decide)
  refine ⟨h.1, ?_⟩
  rw [h.2.1]
  intro heq
  have hcomp := (generateCompleteGrid_good []).1
  have hnz := hcomp 0 0
  rw [heq] at hnz
  exact hnz rfl

/-- C4 (amended): an unrecognized difficulty tag always makes
`generatePuzzle` throw (it never silently defaults to some difficulty
and never returns a puzzle), but the failure happens inside
`createPuzzle` after the complete grid has already been generated: on
return the engine grid is a complete grid and the solution has been
overwritten with it. -/
theorem claim_C4 (e : Engine) (rng : Rng) (d : String)
    (hd : d ∉ validDiffs) :
    (generatePuzzle e rng d).result = Except.error () ∧
      gridComplete (generatePuzzle e rng d).engine.grid ∧
      (generatePuzzle e rng d).engine.solution =
        (generatePuzzle e rng d).engine.grid := by
  have hnone : difficultySettings d = none := by
    have h1 : d ≠ "easy" := fun h => hd (by rw [h]; simp [validDiffs])
    have h2 : d ≠ "medium" := fun h => hd (by rw [h]; simp [validDiffs])
    have h3 : d ≠ "hard" := fun h => hd (by rw [h]; simp [validDiffs])
    have h4 : d ≠ "expert" := fun h => hd (by rw [h]; simp [validDiffs])
    unfold difficultySettings
    rw [if_neg h1, if_neg h2, if_neg h3, if_neg h4]
  have h := generatePuzzle_error e rng hnone
  refine ⟨h.1, ?_, ?_⟩
  · rw [h.2.1]
    exact (generateCompleteGrid_good rng).1
  · rw [h.2.1, h.2.2.1]

/-- Witness for C4 at the unrecognized difficulty "bogus". -/
theorem claim_C4_witness :
    "bogus" ∉ validDiffs ∧
    ((generatePuzzle engineNew [] "bogus").result = Except.error () ∧
      gridComplete (generatePuzzle engineNew [] "bogus").engine.grid ∧
      (generatePuzzle engineNew [] "bogus").engine.solution =
        (generatePuzzle engineNew [] "bogus").engine.grid) :=
  ⟨by decide, claim_C4 engineNew [] "bogus" (by decide)⟩

/-- C5 counterexample: the engine holding the complete but
constraint-violating grid `gBad` (which has no constraint-satisfying
completion) gets `success = true` from `solveCurrentPuzzle`, because the
solver never revalidates already placed values; so an unsolvable input
is not always reported with a false success flag. -/
theorem claim_C5_counterexample :
    (solveCurrentPuzzle engineBad).success = true ∧
      ¬∃ s, IsCompletion engineBad.grid s := by
  constructor
  · unfold solveCurrentPuzzle
    dsimp only
    unfold solvePuzzleWithSteps
    have hE : findEmptyCell engineBad.grid = none := by decide
    split
    · rfl
    · rename_i rc hE2
      rw [hE] at hE2
      cases hE2
  · exact gBad_no_completion

/-- C5 (amended): for every engine whose current grid has values in
[0,9] and whose placed values satisfy the constraints,
`solveCurrentPuzzle` reports an unsatisfiable grid via
`success = false` and `solution = null` (it is a total function, so it
never throws), and whenever it reports a solution that solution is a
constraint-satisfying completion of the (unmodified) input grid. -/
theorem claim_C5 (e : Engine) (hok : gridOk e.grid) (hr : gridRange e.grid) :
    ((¬∃ s, IsCompletion e.grid s) → (solveCurrentPuzzle e).success = false ∧
      (solveCurrentPuzzle e).solution = none) ∧
    (∀ s, (solveCurrentPuzzle e).solution = some s →
      IsCompletion e.grid s ∧ (solveCurrentPuzzle e).success = true) :=
  solveCurrentPuzzle_spec e hok hr

/-- Witness for C5 at a fresh engine (all-empty grid). -/
theorem claim_C5_witness :
    (gridOk engineNew.grid ∧ gridRange engineNew.grid) ∧
    (((¬∃ s, IsCompletion engineNew.grid s) →
        (solveCurrentPuzzle engineNew).success = false ∧
        (solveCurrentPuzzle engineNew).solution = none) ∧
      (∀ s, (solveCurrentPuzzle engineNew).solution = some s →
        IsCompletion engineNew.grid s ∧
          (solveCurrentPuzzle engineNew).success = true)) :=
  ⟨⟨by decide, by decide⟩, claim_C5 engineNew (by decide) (by decide)⟩

/-- C6 counterexample: on the grid `gC6`, the empty cell (8,8) has 0
possible values while cell (0,0) has exactly 1, and `getHint` returns
cell (0,0) (the short circuit at 1 fires before the scan can see the
strictly more constrained cell), so the returned cell is not the empty
cell with the fewest currently possible values. -/
theorem claim_C6_counterexample :
    gC6 0 0 = 0 ∧ gC6 8 8 = 0 ∧
      getHint canonicalGrid gC6 = some { row := 0, col := 0, value := 5 } ∧
      countPoss gC6 (8, 8) < countPoss gC6 (0, 0) :=
  ⟨by decide, by decide, by decide, by decide⟩

/-- C6 (amended): `getHint` returns the first empty cell in row-major
order having at most one candidate when such a cell exists (the scan
short-circuits at a 1-candidate cell, and a 0-candidate cell, once
current best, cannot be displaced); otherwise it returns the first empty
cell attaining the minimum candidate count. The returned value is always
the stored solution at the chosen coordinates, and null is returned
exactly when there is no empty cell. -/
theorem claim_C6 (sol g : Grid) :
    getHint sol g = (hintChoiceCell g).map
      (fun p => { row := p.1, col := p.2, value := sol p.1 p.2 }) ∧
    (getHint sol g = none ↔ emptyCellsL g = []) :=
  ⟨getHint_eq_choice sol g, getHint_none_iff sol g⟩

/-- C7: `isValidMove` on a cell that already holds the (nonzero) value
being tested always returns false, because the cell's own value counts
as a conflict with itself. -/
theorem claim_C7 (g : Grid) (r c : Fin 9) (v : Nat) (hval : g r c = v)
    (hnz : v ≠ 0) : isValidMove g r c v = false := by
  rw [Bool.eq_false_iff]
  intro htrue
  exact isValidMove_self_ne htrue hval

/-- Witness for C7 at cell (0,0) of the canonical grid, which holds 5. -/
theorem claim_C7_witness :
    (canonicalGrid 0 0 = 5 ∧ (5 : Nat) ≠ 0) ∧
      isValidMove canonicalGrid 0 0 5 = false :=
  ⟨⟨by decide, by decide⟩, claim_C7 canonicalGrid 0 0 5 (by decide) (by decide)⟩

/-- C8: for every recognized difficulty (clue target 45/35/25/17), the
generated grid has at least the target number of clues, and exactly the
target number whenever the 1000-attempt budget of the clue-removal loop
was not exhausted. -/
theorem claim_C8 (e : Engine) (rng : Rng) (d : String) (clues : Nat)
    (hd : difficultySettings d = some clues) :
    ∃ p, (generatePuzzle e rng d).result = Except.ok p ∧
      clues ≤ clueCount p.grid ∧
      (0 < (createPuzzleLoop 1000 0 (81 - clues)
          (generateCompleteGrid rng).2 (generateCompleteGrid rng).1).2.2 →
        clueCount p.grid = clues) := by
  obtain ⟨hrange17, hrange45⟩ := difficultySettings_range hd
  obtain ⟨p, hres, hgrid, hsol, hext, huniq, hcomp, hoks, hranges, hokg, hrg⟩ :=
    generatePuzzle_ok e rng hd
  have hcg : clueCount (generateCompleteGrid rng).1 = 81 :=
    clueCount_complete (generateCompleteGrid_good rng).1
  have hloop := createPuzzleLoop_clues 1000 0 (81 - clues)
    (generateCompleteGrid rng).2 (generateCompleteGrid rng).1
    (by rw [hcg]) (by omega) (by omega)
  refine ⟨p, hres, ?_, ?_⟩
  · rw [hgrid]
    have := hloop.1
    omega
  · intro hfuel
    rw [hgrid]
    have := hloop.2 hfuel
    omega

/-- Witness for C8 at difficulty easy (45 clues). -/
theorem claim_C8_witness :
    difficultySettings "easy" = some 45 ∧
    ∃ p, (generatePuzzle engineNew [] "easy").result = Except.ok p ∧
      45 ≤ clueCount p.grid ∧
      (0 < (createPuzzleLoop 1000 0 (81 - 45)
          (generateCompleteGrid []).2 (generateCompleteGrid []).1).2.2 →
        clueCount p.grid = 45) :=
  ⟨by decide, claim_C8 engineNew [] "easy" 45 (by decide)⟩

/-- C9: `validatePuzzle` restores every temporarily cleared cell, so the
grid after the call is identical (all 81 cells) to the grid before it,
and a second call on the resulting grid returns exactly the same
result. -/
theorem claim_C9 (g : Grid) :
    (validatePuzzleSt g).2 = g ∧
      validatePuzzleSt ((validatePuzzleSt g).2) = validatePuzzleSt g ∧
      validatePuzzle ((validatePuzzleSt g).2) = validatePuzzle g := by
  refine ⟨validatePuzzleSt_frame g, ?_, ?_⟩
  · rw [validatePuzzleSt_frame]
  · rw [validatePuzzleSt_frame]

/-- C10: whenever the grid has at least one empty cell, `getHint`
returns a hint (no validity of the grid is assumed, and the chosen cell
may even have zero currently legal candidates); the hint names an empty
cell and its value is read from the stored solution at those
coordinates. -/
theorem claim_C10 (sol g : Grid) (h : ∃ r c : Fin 9, g r c = 0) :
    ∃ r c : Fin 9, g r c = 0 ∧
      getHint sol g = some { row := r, col := c, value := sol r c } := by
  have hne : emptyCellsL g ≠ [] := by
    obtain ⟨r, c, hz⟩ := h
    intro hemp
    have hmem : (r, c) ∈ emptyCellsL g := by
      unfold emptyCellsL
      rw [List.mem_filter]
      exact ⟨mem_cellsList _, by simpa using hz⟩
    rw [hemp] at hmem
    cases hmem
  obtain ⟨p, hp⟩ := hintChoiceCell_isSome hne
  refine ⟨p.1, p.2, hintChoiceCell_mem hp, ?_⟩
  rw [getHint_eq_choice, hp]
  rfl

/-- Witness for C10 at the grid `gC6`, whose filled cells deviate from
the canonical solution and which contains a 0-candidate empty cell. -/
theorem claim_C10_witness :
    (∃ r c : Fin 9, gC6 r c = 0) ∧
    ∃ r c : Fin 9, gC6 r c = 0 ∧
      getHint canonicalGrid gC6 =
        some { row := r, col := c, value := canonicalGrid r c } :=
  ⟨by decide, claim_C10 canonicalGrid gC6 (by decide)⟩
